import Mathlib

/-!
Verification of the size-class subsystem of tcmalloc (`tcmalloc/common.cc`).

The development shallowly embeds `SizeMap::ValidSizeClasses`,
`SizeMap::SetSizeClasses`, `SizeMap::MaybeRunTimeSizeClasses` and the two
table-construction loops of `SizeMap::Init` (the size-to-class lookup sweep and
the cold-class classification loop).

The build-time constants of `tcmalloc/common.h` (`kAlignment`, `kMaxSize`,
`kNumClasses`, ...) and the quantized-index helper `ClassIndex` are not part of
the sources of this repository; they are collected in a `Config` parameter and
`ClassIndex` is modelled from the specification.  The class tables
(`class_to_size_`, `class_to_pages_`, `num_objects_to_move_`) are three parallel
arrays that every loop of the source writes together at the same index, so they
are modelled as a single function from class index to a `SizeClassInfo` row.
All loops are written with an explicit iteration-count ("fuel") argument so that
every definition computes by structural recursion; each wrapper passes fuel
that is exactly the number of iterations the source loop performs.
-/

/-- Row of a size-class specification: `SizeClassInfo` from `tcmalloc/common.h`
(byte size of the class, length of a page run, transfer batch count). -/
structure SizeClassInfo where
  size : Nat
  pages : Nat
  num_to_move : Nat
deriving DecidableEq

/-- Modelled from the spec: the build-time constants of `tcmalloc/common.h`
(absent from the sources), under their source names, plus the page size used by
`Length::in_bytes`, `Span::kCacheSize`, the compiled-in class count
`kSizeClassesCount`, and the predicate
`size_map_internal::IsReducedBelow64SizeClass` (kept abstract). -/
structure Config where
  kAlignment : Nat
  kMaxSize : Nat
  kMaxSmallSize : Nat
  kMultiPageSize : Nat
  kMultiPageAlignment : Nat
  kMaxObjectsToMove : Nat
  kNumBaseClasses : Nat
  kNumClasses : Nat
  kHasExpandedClasses : Bool
  kSizeClassesCount : Nat
  kPageSize : Nat
  kCacheSize : Nat
  isReducedBelow64SizeClass : Nat → Bool

/-- Modelled from the spec: the tier-aware quantized-size index function
(`ClassIndex` in `tcmalloc/common.h`, not among the sources).  A size in the
small tier (up to `kMaxSmallSize`) is rounded up to `kAlignment` and divided by
it; a larger size is indexed at 128-byte granularity, continuing contiguously
after the small tier. -/
def ClassIndex (cfg : Config) (s : Nat) : Nat :=
  if s ≤ cfg.kMaxSmallSize then
    (s + cfg.kAlignment - 1) / cfg.kAlignment
  else
    cfg.kMaxSmallSize / cfg.kAlignment + (s - cfg.kMaxSmallSize + 127) / 128

/-- Required alignment of a class size, from `SizeMap::ValidSizeClasses`:
`alignment = 128`, lowered to `kAlignment` up to `kMultiPageSize` and to
`kMultiPageAlignment` up to `kMaxSmallSize`. -/
def alignmentFor (cfg : Config) (class_size : Nat) : Nat :=
  if class_size ≤ cfg.kMultiPageSize then cfg.kAlignment
  else if class_size ≤ cfg.kMaxSmallSize then cfg.kMultiPageAlignment
  else 128

/-- Checks of one loop iteration of `SizeMap::ValidSizeClasses` (common.cc
lines 115-156): strict size increase, size cap, alignment (a bitwise test in
the source), single-page rule up to `kMultiPageSize`, page cap, batch cap. -/
def classCheck (cfg : Config) (prevSize : Nat) (x : SizeClassInfo) : Bool :=
  decide (prevSize < x.size) &&
  decide (x.size ≤ cfg.kMaxSize) &&
  (Nat.land x.size (alignmentFor cfg x.size - 1) == 0) &&
  (decide (cfg.kMultiPageSize < x.size) || decide (x.pages = 1)) &&
  decide (x.pages < 256) &&
  decide (x.num_to_move ≤ cfg.kMaxObjectsToMove)

/-- Validation loop of `SizeMap::ValidSizeClasses` over classes `c = 1, ...,
n - 1`; the fuel argument only bounds the iteration count. -/
def validLoopF (cfg : Config) (parsed : Nat → SizeClassInfo) (n : Nat) :
    Nat → Nat → Bool
  | 0, _ => true
  | fuel + 1, c =>
    if c < n then
      classCheck cfg (parsed (c - 1)).size (parsed c) &&
        validLoopF cfg parsed n fuel (c + 1)
    else true

/-- Number of leading entries `SizeMap::ValidSizeClasses` actually checks:
`num_classes`, clamped to `kNumBaseClasses` when expanded classes exist
(common.cc lines 111-113). -/
def checkedCount (cfg : Config) (num_classes : Int) : Nat :=
  if cfg.kHasExpandedClasses ∧ (cfg.kNumBaseClasses : Int) < num_classes then
    cfg.kNumBaseClasses
  else num_classes.toNat

/-- Embedding of `SizeMap::ValidSizeClasses` (common.cc lines 107-167):
a non-positive count is rejected, the per-class checks run over the checked
prefix, and the last checked class must have size exactly `kMaxSize`. -/
def ValidSizeClasses (cfg : Config) (num_classes : Int)
    (parsed : Nat → SizeClassInfo) : Bool :=
  if num_classes ≤ 0 then false
  else
    validLoopF cfg parsed (checkedCount cfg num_classes)
        (checkedCount cfg num_classes) 1 &&
      ((parsed (checkedCount cfg num_classes - 1)).size == cfg.kMaxSize)

/-- Pointwise update of a table, the effect of one array store. -/
def upd {α : Type} (f : Nat → α) (i : Nat) (v : α) : Nat → α :=
  fun j => if j = i then v else f j

/-- Copy loop of `SizeMap::SetSizeClasses` (common.cc lines 76-85): walks the
parsed classes `c = 1, ..., num_classes - 1`, skipping reduced-below-64 classes
when requested, and compacts the kept rows into consecutive slots starting at
`curr = 1`.  Returns the table and the final `curr`. -/
def setLoopF (cfg : Config) (parsed : Nat → SizeClassInfo) (n : Nat)
    (reduce : Bool) : Nat → (Nat → SizeClassInfo) → Nat → Nat →
    ((Nat → SizeClassInfo) × Nat)
  | 0, t, _, curr => (t, curr)
  | fuel + 1, t, c, curr =>
    if c < n then
      if reduce && !cfg.isReducedBelow64SizeClass (parsed c).size then
        setLoopF cfg parsed n reduce fuel t (c + 1) curr
      else
        setLoopF cfg parsed n reduce fuel (upd t curr (parsed c)) (c + 1)
          (curr + 1)
    else (t, curr)

/-- Zero-fill loop of `SizeMap::SetSizeClasses` (common.cc lines 88-92): zeroes
every slot from `x` up to `kNumBaseClasses - 1`. -/
def zeroFillF (b : Nat) : Nat → (Nat → SizeClassInfo) → Nat →
    (Nat → SizeClassInfo)
  | 0, t, _ => t
  | fuel + 1, t, x =>
    if x < b then zeroFillF b fuel (upd t x ⟨0, 0, 0⟩) (x + 1) else t

/-- One `std::copy` of `SizeMap::SetSizeClasses` (common.cc lines 96-101):
copies base-register slots `j = 0, ..., b - 1` into slots `b * i + j`. -/
def copyBlockF (b i : Nat) : Nat → (Nat → SizeClassInfo) → Nat →
    (Nat → SizeClassInfo)
  | 0, t, _ => t
  | fuel + 1, t, j =>
    if j < b then copyBlockF b i fuel (upd t (b * i + j) (t j)) (j + 1) else t

/-- Register-replication loop of `SizeMap::SetSizeClasses` (common.cc lines
95-102): copies the base register into registers `i = 1, ..., r - 1`. -/
def copyRegsF (b r : Nat) : Nat → (Nat → SizeClassInfo) → Nat →
    (Nat → SizeClassInfo)
  | 0, t, _ => t
  | fuel + 1, t, i =>
    if i < r then copyRegsF b r fuel (copyBlockF b i b t 0) (i + 1) else t

/-- Embedding of `SizeMap::SetSizeClasses` (common.cc lines 68-103): slot 0 is
the zero sentinel, the parsed classes are compacted into slots from 1, the
remaining base slots are zero-filled, and the base register is replicated into
the upper registers.  The `CHECK_CONDITION(ValidSizeClasses(...))` guard of the
source aborts the process instead of proceeding on an invalid specification;
theorems about this function carry that validity as a hypothesis. -/
def SetSizeClasses (cfg : Config) (num_classes : Nat)
    (parsed : Nat → SizeClassInfo) (reduce : Bool) (t : Nat → SizeClassInfo) :
    Nat → SizeClassInfo :=
  let p := setLoopF cfg parsed num_classes reduce num_classes
    (upd t 0 ⟨0, 0, 0⟩) 1 1
  let t2 := zeroFillF cfg.kNumBaseClasses (cfg.kNumBaseClasses - p.2) p.1 p.2
  copyRegsF cfg.kNumBaseClasses (cfg.kNumClasses / cfg.kNumBaseClasses)
    (cfg.kNumClasses / cfg.kNumBaseClasses - 1) t2 1

/-- Embedding of `SizeMap::MaybeRunTimeSizeClasses` (common.cc lines 48-66).
The environment parser `MaybeSizeClassesFromEnv` is an external collaborator;
its output `(num_classes, parsed)` is taken as input here.  Returns the success
flag together with the resulting tables: the override is rejected without
touching the tables unless it validates and matches the compiled-in class
count. -/
def MaybeRunTimeSizeClasses (cfg : Config) (num_classes : Int)
    (parsed : Nat → SizeClassInfo) (t : Nat → SizeClassInfo) :
    Bool × (Nat → SizeClassInfo) :=
  if ¬ValidSizeClasses cfg num_classes parsed then (false, t)
  else if num_classes ≠ (cfg.kSizeClassesCount : Int) then (false, t)
  else (true, SetSizeClasses cfg num_classes.toNat parsed false t)

/-- Value of the `class_to_size_` array at a class index. -/
def class_to_size (t : Nat → SizeClassInfo) (c : Nat) : Nat := (t c).size

/-- Value of the `class_to_pages_` array at a class index. -/
def class_to_pages (t : Nat → SizeClassInfo) (c : Nat) : Nat := (t c).pages

/-- Value of the `num_objects_to_move_` array at a class index. -/
def num_objects_to_move (t : Nat → SizeClassInfo) (c : Nat) : Nat :=
  (t c).num_to_move

/-- Static zero-initialized class tables, the state of the `SizeMap` arrays
before `Init` runs. -/
def initTables : Nat → SizeClassInfo := fun _ => ⟨0, 0, 0⟩

/-- Class tables produced by `SizeMap::Init` from a specification, before the
lookup array is built: `SetSizeClasses(num_classes, parsed)` on the static
zero-initialized tables (the non-experimental start-up path, and likewise the
accepted runtime-override path). -/
def buildTables (cfg : Config) (num_classes : Int)
    (parsed : Nat → SizeClassInfo) : Nat → SizeClassInfo :=
  SetSizeClasses cfg num_classes.toNat parsed false initTables

/-- Inner fill loop of the lookup-table construction in `SizeMap::Init`
(common.cc lines 210-212 and 276-278): writes class id `c` at
`class_array_[ClassIndex(s) + off]` for `s = s0, s0 + kAlignment, ...` while
`s ≤ maxs` (`off` is 0 for the base register and `kClassArraySize` for the
cold register). -/
def fillClassF (cfg : Config) (off c maxs : Nat) : Nat → (Nat → Nat) → Nat →
    (Nat → Nat)
  | 0, arr, _ => arr
  | fuel + 1, arr, s =>
    if s ≤ maxs then
      fillClassF cfg off c maxs fuel (upd arr (ClassIndex cfg s + off) c)
        (s + cfg.kAlignment)
    else arr

/-- Fill of one class over `[s, maxs]` stepping by `kAlignment`; the fuel
`maxs + 1 - s` is exactly enough when `0 < kAlignment`. -/
def fillClass (cfg : Config) (off : Nat) (arr : Nat → Nat) (c s maxs : Nat) :
    Nat → Nat :=
  fillClassF cfg off c maxs (maxs + 1 - s) arr s

/-- Lookup-construction sweep of `SizeMap::Init` (common.cc lines 206-217):
for each class `c` from 1, fill the lookup array from the running cursor
through the class size, advance the cursor one alignment unit past the class
size, and stop once it exceeds `kMaxSize`.  Returns the lookup array and the
final cursor. -/
def sweepF (cfg : Config) (t : Nat → SizeClassInfo) : Nat → (Nat → Nat) →
    Nat → Nat → ((Nat → Nat) × Nat)
  | 0, arr, next_size, _ => (arr, next_size)
  | fuel + 1, arr, next_size, c =>
    if c < cfg.kNumClasses then
      if cfg.kMaxSize < class_to_size t c + cfg.kAlignment then
        (fillClass cfg 0 arr c next_size (class_to_size t c),
          class_to_size t c + cfg.kAlignment)
      else
        sweepF cfg t fuel (fillClass cfg 0 arr c next_size (class_to_size t c))
          (class_to_size t c + cfg.kAlignment) (c + 1)
    else (arr, next_size)

/-- Lookup array built by `SizeMap::Init` over the class tables: the sweep
starting with cursor 0 at class 1 on the zero-initialized `class_array_`. -/
def buildLookup (cfg : Config) (t : Nat → SizeClassInfo) : (Nat → Nat) × Nat :=
  sweepF cfg t cfg.kNumClasses (fun _ => 0) 0 1

/-- Modelled from the spec: `kClassArraySize` of `tcmalloc/common.h` (absent
from the sources), the length of one register of the lookup array; the lookup
covers quantized indices `0, ..., ClassIndex(kMaxSize)`. -/
def kClassArraySize (cfg : Config) : Nat := ClassIndex cfg cfg.kMaxSize + 1

/-- Modelled from the spec: `kExpandedClassesStart` of `tcmalloc/common.h`
(absent from the sources); the expanded (cold) class range begins right after
the base classes. -/
def kExpandedClassesStart (cfg : Config) : Nat := cfg.kNumBaseClasses

/-- Fixed compiled-in cold candidate sizes `kColdCandidates` of `SizeMap::Init`
(common.cc lines 234-237). -/
def kColdCandidates : List Nat :=
  [2048, 4096, 6144, 7168, 8192, 16384, 20480, 32768, 40960, 65536, 131072,
    262144]

/-- Search loop of the cold classification (common.cc lines 253-260): finds the
first class at index `c ≥ start` whose size equals the candidate. -/
def findColdClassF (cfg : Config) (t : Nat → SizeClassInfo) (target : Nat) :
    Nat → Nat → Option Nat
  | 0, _ => none
  | fuel + 1, c =>
    if c < cfg.kNumClasses then
      if class_to_size t c = target then some c
      else findColdClassF cfg t target fuel (c + 1)
    else none

/-- Scan for a cold candidate's class over `[start, kNumClasses)`. -/
def findColdClass (cfg : Config) (t : Nat → SizeClassInfo)
    (target start : Nat) : Option Nat :=
  findColdClassF cfg t target (cfg.kNumClasses - start) start

/-- State threaded through the cold-classification loop: the lookup array, the
`cold_sizes_` list so far (its length is `cold_sizes_count_`), and the running
size cursor `next_size`. -/
structure ColdState where
  arr : Nat → Nat
  cold_sizes : List Nat
  next : Nat

/-- Duplication of the lookup array's base register into its upper register,
`std::copy(&class_array_[0], &class_array_[kClassArraySize],
&class_array_[kClassArraySize])` (common.cc lines 245-246). -/
def dupUpper (k : Nat) (arr : Nat → Nat) : Nat → Nat :=
  fun i => if k ≤ i ∧ i < k + k then arr (i - k) else arr i

/-- Cold-classification loop of `SizeMap::Init` (common.cc lines 248-283): for
each candidate size in order, locate its class among the expanded classes (skip
if absent), skip it when one page run holds more than `Span::kCacheSize`
objects of that size, otherwise record the class in `cold_sizes_`, redirect the
upper-register lookup entries from the cursor through the candidate size to it,
and advance the cursor; stop once the cursor passes `kMaxSize`. -/
def coldLoop (cfg : Config) (t : Nat → SizeClassInfo) :
    ColdState → List Nat → ColdState
  | st, [] => st
  | st, m :: rest =>
    match findColdClass cfg t m (kExpandedClassesStart cfg) with
    | none => coldLoop cfg t st rest
    | some c =>
      if cfg.kCacheSize < class_to_pages t c * cfg.kPageSize / m then
        coldLoop cfg t st rest
      else
        if cfg.kMaxSize < m + cfg.kAlignment then
          ⟨fillClass cfg (kClassArraySize cfg) st.arr c st.next m,
            st.cold_sizes ++ [c], m + cfg.kAlignment⟩
        else
          coldLoop cfg t
            ⟨fillClass cfg (kClassArraySize cfg) st.arr c st.next m,
              st.cold_sizes ++ [c], m + cfg.kAlignment⟩ rest

/-- Smallest class index in `[c0, c0 + fuel]` whose size reaches `s`, else
`c0 + fuel`; specification-side helper for the lookup-table contract. -/
def leastFromF (sz : Nat → Nat) (s : Nat) : Nat → Nat → Nat
  | 0, c0 => c0
  | fuel + 1, c0 => if s ≤ sz c0 then c0 else leastFromF sz s fuel (c0 + 1)

/-- Smallest class index in `[1, l]` whose size reaches `s` (and `l` itself
when none does): the class a segregated-size allocator should choose. -/
def leastClassGE (sz : Nat → Nat) (l s : Nat) : Nat := leastFromF sz s (l - 1) 1

/-! ### Structural hypotheses on the build constants and class tables -/

/-- Coherence of the build constants, as enforced by `tcmalloc/common.h`:
the base alignment is a positive power of two dividing the multi-page
alignment and 128 (the source asserts `kAlignment <= 16`), the small-size
ceiling is 128-aligned, and the multi-page threshold does not exceed it. -/
structure CfgOK (cfg : Config) : Prop where
  alignPos : 0 < cfg.kAlignment
  align2 : ∃ a, cfg.kAlignment = 2 ^ a
  mpa2 : ∃ b, cfg.kMultiPageAlignment = 2 ^ b
  alignDvdMPA : cfg.kAlignment ∣ cfg.kMultiPageAlignment
  alignDvd128 : cfg.kAlignment ∣ 128
  dvd128Small : (128 : Nat) ∣ cfg.kMaxSmallSize
  multiLeSmall : cfg.kMultiPageSize ≤ cfg.kMaxSmallSize

/-- Grid point of the lookup sweep: a size that is `kAlignment`-aligned and,
beyond the small tier, sits on a 128-byte boundary relative to
`kMaxSmallSize`.  Every class size of a valid specification is one. -/
def Grid (cfg : Config) (q : Nat) : Prop :=
  cfg.kAlignment ∣ q ∧
    (cfg.kMaxSmallSize < q → (128 : Nat) ∣ q - cfg.kMaxSmallSize)

/-- Top of the quantum containing `s`: the smallest grid point at or above
`s`; `ClassIndex` identifies `s` with it. -/
def gridQ (cfg : Config) (s : Nat) : Nat :=
  if s ≤ cfg.kMaxSmallSize then
    cfg.kAlignment * ((s + cfg.kAlignment - 1) / cfg.kAlignment)
  else
    cfg.kMaxSmallSize + 128 * ((s - cfg.kMaxSmallSize + 127) / 128)

/-! ### The lookup-construction sweep -/

/-- Shape of the class tables the lookup sweep runs over, as produced by
`SetSizeClasses` from a specification accepted by `ValidSizeClasses` with at
least one real class: classes `1, ..., l` are populated with strictly
increasing grid-point sizes, and class `l` reaches `kMaxSize` exactly. -/
structure TableOK (cfg : Config) (t : Nat → SizeClassInfo) (l : Nat) :
    Prop where
  one_le : 1 ≤ l
  lt_num : l < cfg.kNumClasses
  mono : ∀ c, 1 ≤ c → c < l → class_to_size t c < class_to_size t (c + 1)
  pos1 : 1 ≤ class_to_size t 1
  last : class_to_size t l = cfg.kMaxSize
  grid : ∀ c, 1 ≤ c → c ≤ l → Grid cfg (class_to_size t c)

/-- Cursor value at the head of iteration `c` of the lookup sweep: 0 for the
first class, otherwise one alignment unit past the previous class size. -/
def nextOf (cfg : Config) (t : Nat → SizeClassInfo) (c : Nat) : Nat :=
  if c = 1 then 0 else class_to_size t (c - 1) + cfg.kAlignment

/-- Specification-side reading of one entry's validity conditions, following
the claim's wording: strictly increasing size, size at most `kMaxSize`, the
tier's alignment rule expressed as divisibility, a single page run for sizes
at or below the multi-page threshold, fewer than 256 pages, and a transfer
batch within `kMaxObjectsToMove`. -/
def ClassEntryOK (cfg : Config) (prevSize : Nat) (x : SizeClassInfo) : Prop :=
  prevSize < x.size ∧ x.size ≤ cfg.kMaxSize ∧
    x.size % alignmentFor cfg x.size = 0 ∧
    (x.size ≤ cfg.kMultiPageSize → x.pages = 1) ∧ x.pages < 256 ∧
    x.num_to_move ≤ cfg.kMaxObjectsToMove

/-- Specification-side acceptance predicate for a whole candidate
specification: a positive count, every checked entry in order, and the last
checked entry's size equal to `kMaxSize`. -/
def SpecAccepts (cfg : Config) (num_classes : Int)
    (parsed : Nat → SizeClassInfo) : Prop :=
  0 < num_classes ∧
    (∀ c, 1 ≤ c → c < checkedCount cfg num_classes →
      ClassEntryOK cfg (parsed (c - 1)).size (parsed c)) ∧
    (parsed (checkedCount cfg num_classes - 1)).size = cfg.kMaxSize

/-- Populating pass of `SizeMap::SetSizeClasses` together with its final
`curr` value (the first unpopulated base slot). -/
def setLoopResult (cfg : Config) (num_classes : Nat)
    (parsed : Nat → SizeClassInfo) (reduce : Bool)
    (t : Nat → SizeClassInfo) : (Nat → SizeClassInfo) × Nat :=
  setLoopF cfg parsed num_classes reduce num_classes (upd t 0 ⟨0, 0, 0⟩) 1 1

/-- Regional description of the class tables built by `SetSizeClasses` on the
zero-initialized tables from an accepted specification (no class reduction):
slot 0 is the sentinel, the checked classes sit in base slots 1 onward, the
remaining base slots are zero, every upper register repeats the base register,
and slots beyond the registers stay zero. -/
structure BuildFacts (cfg : Config) (num_classes : Int)
    (parsed : Nat → SizeClassInfo) : Prop where
  sentinel : buildTables cfg num_classes parsed 0 = ⟨0, 0, 0⟩
  entry : ∀ x, 1 ≤ x → x < checkedCount cfg num_classes →
    buildTables cfg num_classes parsed x = parsed x
  zfill : ∀ x, checkedCount cfg num_classes ≤ x → x < cfg.kNumBaseClasses →
    buildTables cfg num_classes parsed x = ⟨0, 0, 0⟩
  upper : ∀ i j, 1 ≤ i → i < cfg.kNumClasses / cfg.kNumBaseClasses →
    j < cfg.kNumBaseClasses →
    buildTables cfg num_classes parsed (cfg.kNumBaseClasses * i + j) =
      buildTables cfg num_classes parsed j
  beyond : ∀ x,
    cfg.kNumBaseClasses * (cfg.kNumClasses / cfg.kNumBaseClasses) ≤ x →
    buildTables cfg num_classes parsed x = ⟨0, 0, 0⟩


/-- Concrete build configuration used to instantiate the theorems: alignment
8, small-size ceiling 1024, multi-page threshold 512 with alignment 64,
ceiling 2048, eight base classes and no expanded classes. -/
def wcfg : Config :=
  ⟨8, 2048, 1024, 512, 64, 128, 8, 8, false, 4, 8192, 64, fun _ => true⟩

/-- Concrete expanded-classes variant of `wcfg`: sixteen classes in two
registers of eight. -/
def ecfg : Config :=
  ⟨8, 2048, 1024, 512, 64, 128, 8, 16, true, 4, 8192, 64, fun _ => true⟩

/-- Concrete four-entry specification (sentinel plus classes of sizes 8, 1024
and 2048) accepted by `ValidSizeClasses` under `wcfg` and `ecfg`. -/
def wparsed : Nat → SizeClassInfo := fun c =>
  if c = 1 then ⟨8, 1, 32⟩
  else if c = 2 then ⟨1024, 1, 16⟩
  else if c = 3 then ⟨2048, 2, 8⟩
  else ⟨0, 0, 0⟩

/-- Degenerate one-entry specification whose single entry carries size
`kMaxSize` of `wcfg`: the per-class loop of `ValidSizeClasses` checks nothing,
yet the specification is accepted. -/
def wparsedOne : Nat → SizeClassInfo := fun _ => ⟨2048, 1, 8⟩

/-- Example from the specification (§8, small numbers): alignment 8 with three
classes of sizes 8, 16, 32. -/
example :
    let cfg : Config :=
      ⟨8, 32, 1024, 512, 64, 128, 8, 8, false, 4, 8192, 64, fun _ => true⟩
    let parsed : Nat → SizeClassInfo := fun c =>
      if c = 1 then ⟨8, 1, 32⟩ else if c = 2 then ⟨16, 1, 16⟩
      else if c = 3 then ⟨32, 1, 8⟩ else ⟨0, 0, 0⟩
    ValidSizeClasses cfg 4 parsed = true ∧
      (buildLookup cfg (buildTables cfg 4 parsed)).1 (ClassIndex cfg 1) = 1 ∧
      (buildLookup cfg (buildTables cfg 4 parsed)).1 (ClassIndex cfg 8) = 1 ∧
      (buildLookup cfg (buildTables cfg 4 parsed)).1 (ClassIndex cfg 9) = 2 ∧
      (buildLookup cfg (buildTables cfg 4 parsed)).1 (ClassIndex cfg 17) = 3 ∧
      (buildLookup cfg (buildTables cfg 4 parsed)).1 (ClassIndex cfg 32) = 3 := by
  decide

theorem CfgOK.alignLe128 {cfg : Config} (h : CfgOK cfg) :
    cfg.kAlignment ≤ 128 :=
  Nat.le_of_dvd (by omega) h.alignDvd128

theorem CfgOK.alignDvdSmall {cfg : Config} (h : CfgOK cfg) :
    cfg.kAlignment ∣ cfg.kMaxSmallSize :=
  h.alignDvd128.trans h.dvd128Small

/-! ### Arithmetic lemmas about rounding and `ClassIndex` -/

theorem roundUp_ge {a s : Nat} (ha : 0 < a) : s ≤ a * ((s + a - 1) / a) := by
  have h1 := Nat.div_add_mod (s + a - 1) a
  have h2 : (s + a - 1) % a < a := Nat.mod_lt _ ha
  generalize a * ((s + a - 1) / a) = q at h1 ⊢
  omega

theorem ceil_div_of_dvd {a q : Nat} (ha : 0 < a) (h : a ∣ q) :
    (q + a - 1) / a = q / a := by
  obtain ⟨k, rfl⟩ := h
  have e1 : a * k + a - 1 = a - 1 + k * a := by rw [Nat.mul_comm a k]; omega
  rw [e1, Nat.add_mul_div_right _ _ ha, Nat.div_eq_of_lt (by omega),
    Nat.mul_div_cancel_left k ha]
  omega

theorem roundUp_le_of_le {a s g : Nat} (ha : 0 < a) (hd : a ∣ g) (h : s ≤ g) :
    a * ((s + a - 1) / a) ≤ g := by
  have h1 : (s + a - 1) / a ≤ (g + a - 1) / a := Nat.div_le_div_right (by omega)
  rw [ceil_div_of_dvd ha hd] at h1
  calc a * ((s + a - 1) / a) ≤ a * (g / a) := Nat.mul_le_mul_left a h1
    _ = g := Nat.mul_div_cancel' hd

theorem ClassIndex_zero {cfg : Config} (ha : 0 < cfg.kAlignment) :
    ClassIndex cfg 0 = 0 := by
  unfold ClassIndex
  rw [if_pos (Nat.zero_le _)]
  exact Nat.div_eq_of_lt (by omega)

theorem ClassIndex_pos {cfg : Config} (ha : 0 < cfg.kAlignment) {s : Nat}
    (hs : 1 ≤ s) : 1 ≤ ClassIndex cfg s := by
  unfold ClassIndex
  split
  · rw [Nat.le_div_iff_mul_le ha]; omega
  · have h2 : 1 ≤ (s - cfg.kMaxSmallSize + 127) / 128 := by omega
    exact h2.trans (Nat.le_add_left _ _)

theorem ClassIndex_mono {cfg : Config} (hc : CfgOK cfg) {s s2 : Nat}
    (h : s ≤ s2) : ClassIndex cfg s ≤ ClassIndex cfg s2 := by
  have ha := hc.alignPos
  have ham := hc.alignDvdSmall
  unfold ClassIndex
  by_cases h1 : s ≤ cfg.kMaxSmallSize
  · by_cases h2 : s2 ≤ cfg.kMaxSmallSize
    · rw [if_pos h1, if_pos h2]
      exact Nat.div_le_div_right (by omega)
    · rw [if_pos h1, if_neg h2]
      have h3 : (s + cfg.kAlignment - 1) / cfg.kAlignment ≤
          cfg.kMaxSmallSize / cfg.kAlignment := by
        have h3a : (s + cfg.kAlignment - 1) / cfg.kAlignment ≤
            (cfg.kMaxSmallSize + cfg.kAlignment - 1) / cfg.kAlignment :=
          Nat.div_le_div_right (by omega)
        rwa [ceil_div_of_dvd ha ham] at h3a
      have h4 : 1 ≤ (s2 - cfg.kMaxSmallSize + 127) / 128 := by omega
      exact h3.trans (Nat.le_add_right _ _)
  · rw [if_neg h1, if_neg (by omega)]
    have h4 : (s - cfg.kMaxSmallSize + 127) / 128 ≤
        (s2 - cfg.kMaxSmallSize + 127) / 128 := by omega
    omega

theorem ClassIndex_step {cfg : Config} (hc : CfgOK cfg) {q : Nat}
    (hg : Grid cfg q) :
    ClassIndex cfg (q + cfg.kAlignment) = ClassIndex cfg q + 1 := by
  have ha := hc.alignPos
  have ha128 := hc.alignLe128
  have ham := hc.alignDvdSmall
  unfold ClassIndex
  by_cases h1 : q + cfg.kAlignment ≤ cfg.kMaxSmallSize
  · rw [if_pos h1, if_pos (by omega)]
    obtain ⟨k, rfl⟩ := hg.1
    have e1 : cfg.kAlignment * k + cfg.kAlignment + cfg.kAlignment - 1 =
        (cfg.kAlignment - 1 + cfg.kAlignment) + k * cfg.kAlignment := by
      rw [Nat.mul_comm cfg.kAlignment k]; omega
    rw [e1, Nat.add_mul_div_right _ _ ha, Nat.add_div_right _ ha,
      Nat.div_eq_of_lt (by omega),
      ceil_div_of_dvd ha (Dvd.intro k rfl), Nat.mul_div_cancel_left k ha]
    omega
  · by_cases h2 : q ≤ cfg.kMaxSmallSize
    · have hqM : q = cfg.kMaxSmallSize := by
        have hd : cfg.kAlignment ∣ cfg.kMaxSmallSize - q :=
          Nat.dvd_sub' ham hg.1
        rcases Nat.eq_zero_or_pos (cfg.kMaxSmallSize - q) with h0 | h0
        · omega
        · have := Nat.le_of_dvd h0 hd; omega
      subst hqM
      rw [if_pos h2, if_neg h1, ceil_div_of_dvd ha ham]
      have e2 : (cfg.kMaxSmallSize + cfg.kAlignment - cfg.kMaxSmallSize + 127)
          / 128 = 1 := by omega
      rw [e2]
    · have hd := hg.2 (by omega)
      obtain ⟨j, hj⟩ := hd
      rw [if_neg h2, if_neg (by omega)]
      have e3 : (q + cfg.kAlignment - cfg.kMaxSmallSize + 127) / 128 =
          (q - cfg.kMaxSmallSize + 127) / 128 + 1 := by omega
      omega

theorem gridQ_ge {cfg : Config} (ha : 0 < cfg.kAlignment) (s : Nat) :
    s ≤ gridQ cfg s := by
  unfold gridQ
  split
  · exact roundUp_ge ha
  · omega

theorem gridQ_le_of_grid {cfg : Config} (hc : CfgOK cfg) {s g : Nat}
    (hg : Grid cfg g) (h : s ≤ g) : gridQ cfg s ≤ g := by
  have ha := hc.alignPos
  unfold gridQ
  split
  · exact roundUp_le_of_le ha hg.1 h
  · have hd := hg.2 (by omega)
    obtain ⟨j, hj⟩ := hd
    omega

theorem gridQ_grid {cfg : Config} (hc : CfgOK cfg) (s : Nat) :
    Grid cfg (gridQ cfg s) := by
  have ha := hc.alignPos
  unfold gridQ
  split
  · constructor
    · exact Dvd.intro _ rfl
    · intro h2
      have := roundUp_le_of_le ha hc.alignDvdSmall
        (show s ≤ cfg.kMaxSmallSize from by assumption)
      omega
  · constructor
    · exact Nat.dvd_add hc.alignDvdSmall
        (hc.alignDvd128.trans (Dvd.intro _ rfl))
    · intro _
      have e : cfg.kMaxSmallSize + 128 * ((s - cfg.kMaxSmallSize + 127) / 128)
          - cfg.kMaxSmallSize = 128 * ((s - cfg.kMaxSmallSize + 127) / 128) :=
        by omega
      rw [e]
      exact Dvd.intro _ rfl

theorem gridQ_classIndex {cfg : Config} (hc : CfgOK cfg) (s : Nat) :
    ClassIndex cfg (gridQ cfg s) = ClassIndex cfg s := by
  have ha := hc.alignPos
  have ham := hc.alignDvdSmall
  unfold gridQ
  by_cases h1 : s ≤ cfg.kMaxSmallSize
  · rw [if_pos h1]
    have hle : cfg.kAlignment * ((s + cfg.kAlignment - 1) / cfg.kAlignment) ≤
        cfg.kMaxSmallSize := roundUp_le_of_le ha ham h1
    unfold ClassIndex
    rw [if_pos hle, if_pos h1,
      ceil_div_of_dvd ha (Dvd.intro _ rfl), Nat.mul_div_cancel_left _ ha]
  · rw [if_neg h1]
    have hj : 1 ≤ (s - cfg.kMaxSmallSize + 127) / 128 := by omega
    unfold ClassIndex
    rw [if_neg (by omega), if_neg h1]
    have e : cfg.kMaxSmallSize + 128 * ((s - cfg.kMaxSmallSize + 127) / 128) -
        cfg.kMaxSmallSize + 127 =
        128 * ((s - cfg.kMaxSmallSize + 127) / 128) + 127 := by omega
    rw [e]
    omega

theorem grid_add_le_of_lt {cfg : Config} (hc : CfgOK cfg) {q q2 : Nat}
    (hg : Grid cfg q) (hg2 : Grid cfg q2) (h : q < q2) :
    q + cfg.kAlignment ≤ q2 := by
  have hd : cfg.kAlignment ∣ q2 - q := Nat.dvd_sub' hg2.1 hg.1
  have := Nat.le_of_dvd (by omega) hd
  omega

/-! ### Behaviour of the inner fill loop -/

theorem fillClassF_mem {cfg : Config} {off c maxs : Nat} :
    ∀ fuel s arr i, fillClassF cfg off c maxs fuel arr s i = c ∨
      fillClassF cfg off c maxs fuel arr s i = arr i := by
  intro fuel
  induction fuel with
  | zero => intro s arr i; right; rfl
  | succ fuel ih =>
    intro s arr i
    simp only [fillClassF]
    split
    · rcases ih (s + cfg.kAlignment) (upd arr (ClassIndex cfg s + off) c) i
        with h | h
      · left; exact h
      · rw [h]
        unfold upd
        split
        · left; rfl
        · right; rfl
    · right; rfl

theorem fillClassF_written {cfg : Config} {off c maxs : Nat}
    (ha : 0 < cfg.kAlignment) :
    ∀ fuel s arr s2, s ≤ s2 → s2 ≤ maxs → cfg.kAlignment ∣ (s2 - s) →
      maxs + 1 - s ≤ fuel →
      fillClassF cfg off c maxs fuel arr s (ClassIndex cfg s2 + off) = c := by
  intro fuel
  induction fuel with
  | zero => intro s arr s2 h1 h2 _ hf; omega
  | succ fuel ih =>
    intro s arr s2 h1 h2 hd hf
    simp only [fillClassF]
    rw [if_pos (by omega)]
    by_cases he : s2 = s
    · subst he
      rcases fillClassF_mem fuel (s2 + cfg.kAlignment)
          (upd arr (ClassIndex cfg s2 + off) c) (ClassIndex cfg s2 + off)
        with h | h
      · exact h
      · rw [h]; unfold upd; rw [if_pos rfl]
    · have hs2 : s + cfg.kAlignment ≤ s2 := by
        have := Nat.le_of_dvd (by omega) hd
        omega
      have hd2 : cfg.kAlignment ∣ (s2 - (s + cfg.kAlignment)) := by
        have e : s2 - (s + cfg.kAlignment) =
            (s2 - s) - cfg.kAlignment := by omega
        rw [e]
        exact Nat.dvd_sub' hd (dvd_refl _)
      exact ih (s + cfg.kAlignment) _ s2 hs2 h2 hd2 (by omega)

theorem fillClassF_untouched {cfg : Config} {off c maxs : Nat} :
    ∀ fuel s arr i,
      (∀ s2, s ≤ s2 → s2 ≤ maxs → cfg.kAlignment ∣ (s2 - s) →
        i ≠ ClassIndex cfg s2 + off) →
      fillClassF cfg off c maxs fuel arr s i = arr i := by
  intro fuel
  induction fuel with
  | zero => intro s arr i _; rfl
  | succ fuel ih =>
    intro s arr i h
    simp only [fillClassF]
    split
    · rw [ih (s + cfg.kAlignment) _ i]
      · unfold upd
        rw [if_neg (h s (le_refl s) (by assumption) ⟨0, by omega⟩)]
      · intro s2 h1 h2 hd
        refine h s2 (by omega) h2 ?_
        have e : s2 - s = (s2 - (s + cfg.kAlignment)) + cfg.kAlignment := by
          omega
        rw [e]
        exact Nat.dvd_add hd (dvd_refl _)
    · rfl

theorem fillClass_written {cfg : Config} {off c maxs s s2 : Nat}
    (ha : 0 < cfg.kAlignment) (arr : Nat → Nat) (h1 : s ≤ s2) (h2 : s2 ≤ maxs)
    (hd : cfg.kAlignment ∣ (s2 - s)) :
    fillClass cfg off arr c s maxs (ClassIndex cfg s2 + off) = c :=
  fillClassF_written ha _ s arr s2 h1 h2 hd (le_refl _)

theorem fillClass_untouched {cfg : Config} {off c maxs s : Nat}
    (arr : Nat → Nat) (i : Nat)
    (h : ∀ s2, s ≤ s2 → s2 ≤ maxs → cfg.kAlignment ∣ (s2 - s) →
      i ≠ ClassIndex cfg s2 + off) :
    fillClass cfg off arr c s maxs i = arr i :=
  fillClassF_untouched _ s arr i h

/-! ### The least sufficient class -/

theorem leastFromF_eq {sz : Nat → Nat} {s : Nat} :
    ∀ fuel c0 ct, c0 ≤ ct → ct ≤ c0 + fuel → s ≤ sz ct →
      (∀ j, c0 ≤ j → j < ct → sz j < s) → leastFromF sz s fuel c0 = ct := by
  intro fuel
  induction fuel with
  | zero => intro c0 ct h1 h2 _ _; simp only [leastFromF]; omega
  | succ fuel ih =>
    intro c0 ct h1 h2 hbig hsmall
    simp only [leastFromF]
    split
    · rcases Nat.eq_or_lt_of_le h1 with he | hlt
      · omega
      · exact absurd (by assumption) (Nat.not_le_of_lt (hsmall c0 (le_refl _)
          hlt))
    · have hne : c0 ≠ ct := by
        intro he
        subst he
        exact absurd hbig (by assumption)
      exact ih (c0 + 1) ct (by omega) (by omega) hbig
        (fun j hj1 hj2 => hsmall j (by omega) hj2)

theorem leastFromF_le {sz : Nat → Nat} {s : Nat} :
    ∀ fuel c0, c0 ≤ leastFromF sz s fuel c0 ∧
      leastFromF sz s fuel c0 ≤ c0 + fuel := by
  intro fuel
  induction fuel with
  | zero => intro c0; simp [leastFromF]
  | succ fuel ih =>
    intro c0
    simp only [leastFromF]
    split
    · omega
    · have := ih (c0 + 1)
      omega

theorem leastFromF_ge {sz : Nat → Nat} {s : Nat} :
    ∀ fuel c0, s ≤ sz (leastFromF sz s fuel c0) ∨
      leastFromF sz s fuel c0 = c0 + fuel := by
  intro fuel
  induction fuel with
  | zero => intro c0; right; rfl
  | succ fuel ih =>
    intro c0
    simp only [leastFromF]
    split
    · left; assumption
    · rcases ih (c0 + 1) with h | h
      · left; exact h
      · right; omega

theorem leastFromF_below {sz : Nat → Nat} {s : Nat} :
    ∀ fuel c0 j, c0 ≤ j → j < leastFromF sz s fuel c0 → sz j < s := by
  intro fuel
  induction fuel with
  | zero => intro c0 j h1 h2; simp only [leastFromF] at h2; omega
  | succ fuel ih =>
    intro c0 j h1 h2
    simp only [leastFromF] at h2
    by_cases hc : s ≤ sz c0
    · rw [if_pos hc] at h2; omega
    · rw [if_neg hc] at h2
      rcases Nat.eq_or_lt_of_le h1 with he | hlt
      · subst he; omega
      · exact ih (c0 + 1) j hlt h2

theorem leastClassGE_eq {sz : Nat → Nat} {l s ct : Nat} (h1 : 1 ≤ ct)
    (h2 : ct ≤ l) (hbig : s ≤ sz ct)
    (hsmall : ∀ j, 1 ≤ j → j < ct → sz j < s) : leastClassGE sz l s = ct :=
  leastFromF_eq (l - 1) 1 ct h1 (by omega) hbig hsmall

theorem leastClassGE_mem {sz : Nat → Nat} {l s : Nat} (hl : 1 ≤ l) :
    1 ≤ leastClassGE sz l s ∧ leastClassGE sz l s ≤ l := by
  have := @leastFromF_le sz s (l - 1) 1
  unfold leastClassGE
  omega

theorem leastClassGE_ge {sz : Nat → Nat} {l s : Nat} (hl : 1 ≤ l)
    (hcov : s ≤ sz l) : s ≤ sz (leastClassGE sz l s) := by
  rcases @leastFromF_ge sz s (l - 1) 1 with h | h
  · exact h
  · unfold leastClassGE
    rw [h]
    have e : 1 + (l - 1) = l := by omega
    rw [e]
    exact hcov

theorem leastClassGE_below {sz : Nat → Nat} {l s : Nat} :
    ∀ j, 1 ≤ j → j < leastClassGE sz l s → sz j < s :=
  fun j hj1 hj2 => leastFromF_below (l - 1) 1 j hj1 hj2

theorem TableOK.mono_le {cfg : Config} {t : Nat → SizeClassInfo} {l : Nat}
    (ht : TableOK cfg t l) :
    ∀ d c, 1 ≤ c → c + d ≤ l → class_to_size t c ≤ class_to_size t (c + d) := by
  intro d
  induction d with
  | zero => intro c _ _; exact le_refl _
  | succ d ih =>
    intro c h1 h2
    have h3 := ih c h1 (by omega)
    have h4 := ht.mono (c + d) (by omega) (by omega)
    have e : c + (d + 1) = c + d + 1 := by omega
    rw [e]
    omega

theorem TableOK.le_of_le {cfg : Config} {t : Nat → SizeClassInfo} {l : Nat}
    (ht : TableOK cfg t l) {c c2 : Nat} (h1 : 1 ≤ c) (h2 : c ≤ c2)
    (h3 : c2 ≤ l) : class_to_size t c ≤ class_to_size t c2 := by
  have := ht.mono_le (c2 - c) c h1 (by omega)
  have e : c + (c2 - c) = c2 := by omega
  rwa [e] at this

theorem TableOK.lt_of_lt {cfg : Config} {t : Nat → SizeClassInfo} {l : Nat}
    (ht : TableOK cfg t l) {c c2 : Nat} (h1 : 1 ≤ c) (h2 : c < c2)
    (h3 : c2 ≤ l) : class_to_size t c < class_to_size t c2 := by
  have h4 := ht.le_of_le h1 (show c ≤ c2 - 1 by omega) (by omega)
  have h5 := ht.mono (c2 - 1) (by omega) (by omega)
  have e : c2 - 1 + 1 = c2 := by omega
  rw [e] at h5
  omega

theorem TableOK.le_max {cfg : Config} {t : Nat → SizeClassInfo} {l : Nat}
    (ht : TableOK cfg t l) {c : Nat} (h1 : 1 ≤ c) (h2 : c ≤ l) :
    class_to_size t c ≤ cfg.kMaxSize := by
  have := ht.le_of_le h1 h2 (le_refl l)
  rw [ht.last] at this
  exact this

theorem nextOf_dvd {cfg : Config} {t : Nat → SizeClassInfo} {l : Nat}
    (ht : TableOK cfg t l) {c : Nat} (h1 : 1 ≤ c) (h2 : c ≤ l) :
    cfg.kAlignment ∣ nextOf cfg t c := by
  unfold nextOf
  split
  · exact Dvd.intro 0 rfl
  · exact Nat.dvd_add (ht.grid (c - 1) (by omega) (by omega)).1 (dvd_refl _)

theorem nextOf_le_gridQ_below {cfg : Config} {t : Nat → SizeClassInfo}
    {l : Nat} (hc : CfgOK cfg) (ht : TableOK cfg t l) {c s : Nat} (h1 : 1 ≤ c)
    (h2 : c ≤ l) (hs : nextOf cfg t c ≤ gridQ cfg s) :
    ∀ j, 1 ≤ j → j < c → class_to_size t j < s := by
  intro j hj1 hj2
  have hc2 : 2 ≤ c := by omega
  have hn : nextOf cfg t c = class_to_size t (c - 1) + cfg.kAlignment := by
    unfold nextOf; rw [if_neg (by omega)]
  by_contra hge
  have hge2 : s ≤ class_to_size t (c - 1) := by
    have := ht.le_of_le hj1 (show j ≤ c - 1 by omega) (by omega)
    omega
  have hgle : gridQ cfg s ≤ class_to_size t (c - 1) :=
    gridQ_le_of_grid hc (ht.grid (c - 1) (by omega) (by omega)) hge2
  have := hc.alignPos
  omega

/-- Main characterization of the lookup sweep of `SizeMap::Init`: started at
iteration `c` with the cursor `nextOf c`, it maps the quantum of every size
`s ≤ kMaxSize` whose quantum top lies at or beyond the cursor to the least
sufficient class, and leaves every lookup slot below the cursor's quantum
untouched. -/
theorem sweep_suffix {cfg : Config} {t : Nat → SizeClassInfo} {l : Nat}
    (hc : CfgOK cfg) (ht : TableOK cfg t l) :
    ∀ k c fuel arr, 1 ≤ c → c ≤ l → l - c = k →
      cfg.kNumClasses - c ≤ fuel →
      (∀ s, 1 ≤ s → s ≤ cfg.kMaxSize → nextOf cfg t c ≤ gridQ cfg s →
        (sweepF cfg t fuel arr (nextOf cfg t c) c).1 (ClassIndex cfg s) =
          leastClassGE (class_to_size t) l s) ∧
      (∀ i, i < ClassIndex cfg (nextOf cfg t c) →
        (sweepF cfg t fuel arr (nextOf cfg t c) c).1 i = arr i) := by
  have ha := hc.alignPos
  intro k
  induction k with
  | zero =>
    intro c fuel arr hc1 hcl hk hfuel
    have hceq : c = l := by omega
    subst hceq
    have hN : c < cfg.kNumClasses := ht.lt_num
    cases fuel with
    | zero => omega
    | succ f =>
      simp only [sweepF]
      rw [if_pos hN, if_pos (by rw [ht.last]; omega)]
      dsimp only
      constructor
      · intro s hs1 hs2 hsq
        have hgg := gridQ_grid hc s
        have hgmax : Grid cfg cfg.kMaxSize := by
          rw [← ht.last]
          exact ht.grid c hc1 (le_refl c)
        have hgle : gridQ cfg s ≤ class_to_size t c := by
          rw [ht.last]
          exact gridQ_le_of_grid hc hgmax hs2
        have hw : fillClass cfg 0 arr c (nextOf cfg t c)
            (class_to_size t c) (ClassIndex cfg (gridQ cfg s) + 0) = c :=
          fillClass_written ha arr hsq hgle
            (Nat.dvd_sub' hgg.1 (nextOf_dvd ht hc1 (le_refl c)))
        rw [Nat.add_zero, gridQ_classIndex hc s] at hw
        rw [hw]
        refine (leastClassGE_eq hc1 (le_refl c) ?_ ?_).symm
        · rw [ht.last]; exact hs2
        · exact nextOf_le_gridQ_below hc ht hc1 (le_refl c) hsq
      · intro i hi
        refine fillClass_untouched arr i ?_
        intro s2 hs2a _ _
        have := ClassIndex_mono hc hs2a
        omega
  | succ k ih =>
    intro c fuel arr hc1 hcl hk hfuel
    have hclt : c < l := by omega
    have hN : c < cfg.kNumClasses := by have := ht.lt_num; omega
    have hstep : class_to_size t c + cfg.kAlignment ≤ class_to_size t l :=
      grid_add_le_of_lt hc (ht.grid c hc1 (by omega))
        (ht.grid l ht.one_le (le_refl l)) (ht.lt_of_lt hc1 hclt (le_refl l))
    have hstep2 : class_to_size t c + cfg.kAlignment ≤ cfg.kMaxSize := by
      rw [← ht.last]
      exact hstep
    have hnext : nextOf cfg t (c + 1) =
        class_to_size t c + cfg.kAlignment := by
      unfold nextOf
      rw [if_neg (by omega), Nat.add_sub_cancel]
    cases fuel with
    | zero => omega
    | succ f =>
      simp only [sweepF]
      rw [if_pos hN, if_neg (by omega)]
      have hih := ih (c + 1) f
        (fillClass cfg 0 arr c (nextOf cfg t c) (class_to_size t c))
        (by omega) (by omega) (by omega) (by omega)
      rw [hnext] at hih
      constructor
      · intro s hs1 hs2 hsq
        have hgg := gridQ_grid hc s
        by_cases hgle : gridQ cfg s ≤ class_to_size t c
        · have hi1 : ClassIndex cfg s ≤ ClassIndex cfg (class_to_size t c) :=
            by
            rw [← gridQ_classIndex hc s]
            exact ClassIndex_mono hc hgle
          have hi2 : ClassIndex cfg (class_to_size t c + cfg.kAlignment) =
              ClassIndex cfg (class_to_size t c) + 1 :=
            ClassIndex_step hc (ht.grid c hc1 (by omega))
          have hres := hih.2 (ClassIndex cfg s) (by omega)
          rw [hres]
          have hw : fillClass cfg 0 arr c (nextOf cfg t c)
              (class_to_size t c) (ClassIndex cfg (gridQ cfg s) + 0) = c :=
            fillClass_written ha arr hsq hgle
              (Nat.dvd_sub' hgg.1 (nextOf_dvd ht hc1 (by omega)))
          rw [Nat.add_zero, gridQ_classIndex hc s] at hw
          rw [hw]
          refine (leastClassGE_eq hc1 (by omega) ?_ ?_).symm
          · have := gridQ_ge ha s
            omega
          · exact nextOf_le_gridQ_below hc ht hc1 (by omega) hsq
        · have hge : class_to_size t c + cfg.kAlignment ≤ gridQ cfg s :=
            grid_add_le_of_lt hc (ht.grid c hc1 (by omega)) hgg (by omega)
          exact hih.1 s hs1 hs2 hge
      · intro i hi
        have hle : nextOf cfg t c ≤ class_to_size t c + cfg.kAlignment := by
          unfold nextOf
          split
          · omega
          · have := ht.le_of_le (show 1 ≤ c - 1 by omega)
              (show c - 1 ≤ c by omega) (by omega)
            omega
        have hi2 : i < ClassIndex cfg (class_to_size t c + cfg.kAlignment) :=
          by
          have := ClassIndex_mono hc hle
          omega
        rw [hih.2 i hi2]
        refine fillClass_untouched arr i ?_
        intro s2 hs2a _ _
        have := ClassIndex_mono hc hs2a
        omega

/-! ### The validator as a predicate -/

theorem land_two_pow_sub_one (n k : Nat) :
    Nat.land n (2 ^ k - 1) = n % 2 ^ k := by
  refine Nat.eq_of_testBit_eq fun i => ?_
  have h1 : Nat.land n (2 ^ k - 1) = n &&& (2 ^ k - 1) := rfl
  rw [h1, Nat.testBit_land, Nat.testBit_two_pow_sub_one,
    Nat.testBit_mod_two_pow]
  exact Bool.and_comm _ _

theorem aligned_check_iff {sz al : Nat} (hpow : ∃ a, al = 2 ^ a) :
    ((Nat.land sz (al - 1) == 0) = true) ↔ sz % al = 0 := by
  obtain ⟨a, rfl⟩ := hpow
  rw [beq_iff_eq, land_two_pow_sub_one]

theorem classCheck_iff {cfg : Config} (hc : CfgOK cfg) (prevSize : Nat)
    (x : SizeClassInfo) :
    classCheck cfg prevSize x = true ↔ ClassEntryOK cfg prevSize x := by
  have hpow : ∃ a, alignmentFor cfg x.size = 2 ^ a := by
    unfold alignmentFor
    split
    · exact hc.align2
    · split
      · exact hc.mpa2
      · exact ⟨7, rfl⟩
  unfold classCheck ClassEntryOK
  simp only [Bool.and_eq_true, Bool.or_eq_true, decide_eq_true_eq,
    aligned_check_iff hpow]
  constructor
  · rintro ⟨⟨⟨⟨⟨h1, h2⟩, h3⟩, h4⟩, h5⟩, h6⟩
    refine ⟨h1, h2, h3, fun hle => ?_, h5, h6⟩
    rcases h4 with h | h
    · omega
    · exact h
  · rintro ⟨h1, h2, h3, h4, h5, h6⟩
    refine ⟨⟨⟨⟨⟨h1, h2⟩, h3⟩, ?_⟩, h5⟩, h6⟩
    by_cases hle : x.size ≤ cfg.kMultiPageSize
    · exact Or.inr (h4 hle)
    · exact Or.inl (by omega)

theorem validLoopF_iff {cfg : Config} {parsed : Nat → SizeClassInfo}
    {n : Nat} : ∀ fuel c, n ≤ c + fuel →
      (validLoopF cfg parsed n fuel c = true ↔
        ∀ j, c ≤ j → j < n →
          classCheck cfg (parsed (j - 1)).size (parsed j) = true) := by
  intro fuel
  induction fuel with
  | zero =>
    intro c h
    simp only [validLoopF]
    constructor
    · intro _ j hj1 hj2; omega
    · intro _; trivial
  | succ fuel ih =>
    intro c h
    simp only [validLoopF]
    by_cases hcn : c < n
    · rw [if_pos hcn, Bool.and_eq_true, ih (c + 1) (by omega)]
      constructor
      · rintro ⟨h1, h2⟩ j hj1 hj2
        by_cases hj : j = c
        · subst hj; exact h1
        · exact h2 j (by omega) hj2
      · intro hall
        exact ⟨hall c (le_refl c) hcn,
          fun j hj1 hj2 => hall j (by omega) hj2⟩
    · rw [if_neg hcn]
      constructor
      · intro _ j hj1 hj2; omega
      · intro _; trivial

theorem valid_num_pos {cfg : Config} {num_classes : Int}
    {parsed : Nat → SizeClassInfo}
    (hv : ValidSizeClasses cfg num_classes parsed = true) : 0 < num_classes :=
  by
  unfold ValidSizeClasses at hv
  by_cases h : num_classes ≤ 0
  · rw [if_pos h] at hv
    exact absurd hv (by simp)
  · omega

theorem valid_parts {cfg : Config} {num_classes : Int}
    {parsed : Nat → SizeClassInfo}
    (hv : ValidSizeClasses cfg num_classes parsed = true) :
    validLoopF cfg parsed (checkedCount cfg num_classes)
        (checkedCount cfg num_classes) 1 = true ∧
      (parsed (checkedCount cfg num_classes - 1)).size = cfg.kMaxSize := by
  have hpos := valid_num_pos hv
  unfold ValidSizeClasses at hv
  rw [if_neg (by omega), Bool.and_eq_true, beq_iff_eq] at hv
  exact hv

theorem ValidSizeClasses_iff {cfg : Config} (hc : CfgOK cfg)
    (num_classes : Int) (parsed : Nat → SizeClassInfo) :
    ValidSizeClasses cfg num_classes parsed = true ↔
      SpecAccepts cfg num_classes parsed := by
  unfold ValidSizeClasses SpecAccepts
  by_cases hnc : num_classes ≤ 0
  · rw [if_pos hnc]
    constructor
    · intro h; exact absurd h (by simp)
    · rintro ⟨h1, _⟩; omega
  · rw [if_neg hnc, Bool.and_eq_true, beq_iff_eq,
      validLoopF_iff _ 1 (by omega)]
    constructor
    · rintro ⟨h1, h2⟩
      exact ⟨by omega,
        fun c hc1 hc2 => (classCheck_iff hc _ _).1 (h1 c hc1 hc2), h2⟩
    · rintro ⟨h1, h2, h3⟩
      exact ⟨fun j hj1 hj2 => (classCheck_iff hc _ _).2 (h2 j hj1 hj2), h3⟩

theorem entry_grid {cfg : Config} (hc : CfgOK cfg) {sz : Nat}
    (hmod : sz % alignmentFor cfg sz = 0) : Grid cfg sz := by
  unfold alignmentFor at hmod
  constructor
  · by_cases h1 : sz ≤ cfg.kMultiPageSize
    · rw [if_pos h1] at hmod
      exact Nat.dvd_of_mod_eq_zero hmod
    · rw [if_neg h1] at hmod
      by_cases h2 : sz ≤ cfg.kMaxSmallSize
      · rw [if_pos h2] at hmod
        exact hc.alignDvdMPA.trans (Nat.dvd_of_mod_eq_zero hmod)
      · rw [if_neg h2] at hmod
        exact hc.alignDvd128.trans (Nat.dvd_of_mod_eq_zero hmod)
  · intro hM
    have h1 : ¬sz ≤ cfg.kMultiPageSize := by
      have := hc.multiLeSmall
      omega
    rw [if_neg h1, if_neg (by omega)] at hmod
    exact Nat.dvd_sub' (Nat.dvd_of_mod_eq_zero hmod) hc.dvd128Small

/-! ### Behaviour of the table-builder loops -/

theorem setLoopF_false_get {cfg : Config} {parsed : Nat → SizeClassInfo}
    {n : Nat} : ∀ fuel c t, n ≤ c + fuel →
      (setLoopF cfg parsed n false fuel t c c).2 = max c n ∧
        ∀ x, (setLoopF cfg parsed n false fuel t c c).1 x =
          if c ≤ x ∧ x < n then parsed x else t x := by
  intro fuel
  induction fuel with
  | zero =>
    intro c t h
    simp only [setLoopF]
    constructor
    · omega
    · intro x
      rw [if_neg (by omega)]
  | succ fuel ih =>
    intro c t h
    simp only [setLoopF]
    by_cases hcn : c < n
    · rw [if_pos hcn, if_neg (by simp)]
      obtain ⟨ih2, ih1⟩ := ih (c + 1) (upd t c (parsed c)) (by omega)
      constructor
      · rw [ih2]; omega
      · intro x
        rw [ih1 x]
        by_cases hx1 : c + 1 ≤ x ∧ x < n
        · rw [if_pos hx1, if_pos ⟨by omega, hx1.2⟩]
        · rw [if_neg hx1]
          by_cases hx2 : x = c
          · subst hx2
            rw [if_pos ⟨le_refl x, hcn⟩]
            unfold upd
            rw [if_pos rfl]
          · rw [if_neg (by omega)]
            unfold upd
            rw [if_neg hx2]
    · rw [if_neg hcn]
      constructor
      · dsimp only
        omega
      · intro x
        dsimp only
        rw [if_neg (by omega)]

theorem zeroFillF_get {b : Nat} : ∀ fuel x t, b ≤ x + fuel → ∀ y,
    zeroFillF b fuel t x y = if x ≤ y ∧ y < b then ⟨0, 0, 0⟩ else t y := by
  intro fuel
  induction fuel with
  | zero =>
    intro x t h y
    simp only [zeroFillF]
    rw [if_neg (by omega)]
  | succ fuel ih =>
    intro x t h y
    simp only [zeroFillF]
    by_cases hxb : x < b
    · rw [if_pos hxb, ih (x + 1) _ (by omega) y]
      by_cases h1 : x + 1 ≤ y ∧ y < b
      · rw [if_pos h1, if_pos ⟨by omega, h1.2⟩]
      · rw [if_neg h1]
        by_cases h2 : y = x
        · subst h2
          rw [if_pos ⟨le_refl y, hxb⟩]
          unfold upd
          rw [if_pos rfl]
        · rw [if_neg (by omega)]
          unfold upd
          rw [if_neg h2]
    · rw [if_neg hxb, if_neg (by omega)]

theorem copyBlockF_get {b i bk : Nat} (hbk : b * i = bk) (hbbk : b ≤ bk) :
    ∀ fuel j t y, b ≤ j + fuel →
      copyBlockF b i fuel t j y =
        if bk + j ≤ y ∧ y < bk + b then t (y - bk) else t y := by
  intro fuel
  induction fuel with
  | zero =>
    intro j t y h
    simp only [copyBlockF]
    rw [if_neg (by omega)]
  | succ fuel ih =>
    intro j t y h
    simp only [copyBlockF]
    by_cases hjb : j < b
    · rw [if_pos hjb, hbk, ih (j + 1) _ y (by omega)]
      by_cases h1 : bk + (j + 1) ≤ y ∧ y < bk + b
      · rw [if_pos h1, if_pos ⟨by omega, h1.2⟩]
        unfold upd
        rw [if_neg (by omega)]
      · rw [if_neg h1]
        by_cases h2 : y = bk + j
        · rw [if_pos ⟨by omega, by omega⟩]
          unfold upd
          rw [if_pos h2]
          have e : y - bk = j := by omega
          rw [e]
        · rw [if_neg (by omega)]
          unfold upd
          rw [if_neg h2]
    · rw [if_neg hjb, if_neg (by omega)]

theorem copyRegsF_low {b r : Nat} : ∀ fuel i t y, 1 ≤ i → y < b * i →
    copyRegsF b r fuel t i y = t y := by
  intro fuel
  induction fuel with
  | zero => intro i t y _ _; rfl
  | succ fuel ih =>
    intro i t y hi hy
    simp only [copyRegsF]
    by_cases hir : i < r
    · rw [if_pos hir]
      have hmul : b * i ≤ b * (i + 1) := Nat.mul_le_mul_left b (by omega)
      rw [ih (i + 1) _ y (by omega) (by omega)]
      have hbbk : b ≤ b * i := Nat.le_mul_of_pos_right b hi
      rw [copyBlockF_get rfl hbbk b 0 t y (by omega)]
      rw [if_neg (by omega)]
    · rw [if_neg hir]

theorem copyRegsF_high {b r : Nat} : ∀ fuel i t y, 1 ≤ i → b * r ≤ y →
    copyRegsF b r fuel t i y = t y := by
  intro fuel
  induction fuel with
  | zero => intro i t y _ _; rfl
  | succ fuel ih =>
    intro i t y hi hy
    simp only [copyRegsF]
    by_cases hir : i < r
    · rw [if_pos hir]
      rw [ih (i + 1) _ y (by omega) hy]
      have hbbk : b ≤ b * i := Nat.le_mul_of_pos_right b hi
      have hmul : b * (i + 1) ≤ b * r := Nat.mul_le_mul_left b (by omega)
      have hsucc : b * (i + 1) = b * i + b := Nat.mul_succ b i
      rw [copyBlockF_get rfl hbbk b 0 t y (by omega)]
      rw [if_neg (by omega)]
    · rw [if_neg hir]

theorem copyRegsF_copy {b r : Nat} : ∀ fuel i t i2 j, 1 ≤ i → i ≤ i2 →
    i2 < r → r ≤ i + fuel → j < b →
    copyRegsF b r fuel t i (b * i2 + j) = t j := by
  intro fuel
  induction fuel with
  | zero => intro i t i2 j _ _ _ _ _; omega
  | succ fuel ih =>
    intro i t i2 j hi hii2 hi2r hfuel hj
    simp only [copyRegsF]
    rw [if_pos (by omega)]
    have hbbk : b ≤ b * i := Nat.le_mul_of_pos_right b hi
    have hsucc : b * (i + 1) = b * i + b := Nat.mul_succ b i
    by_cases hcase : i2 = i
    · subst hcase
      rw [copyRegsF_low fuel (i2 + 1) _ (b * i2 + j) (by omega) (by omega)]
      rw [copyBlockF_get rfl hbbk b 0 t (b * i2 + j) (by omega)]
      rw [if_pos ⟨by omega, by omega⟩]
      have e : b * i2 + j - b * i2 = j := by omega
      rw [e]
    · have hmul : b * i ≤ b * i2 := Nat.mul_le_mul_left b (by omega)
      rw [ih (i + 1) _ i2 j (by omega) (by omega) hi2r (by omega) hj]
      rw [copyBlockF_get rfl hbbk b 0 t j (by omega)]
      rw [if_neg (by omega)]

/-! ### Regional description of the built class tables -/

theorem SetSizeClasses_eq (cfg : Config) (num_classes : Nat)
    (parsed : Nat → SizeClassInfo) (reduce : Bool) (t : Nat → SizeClassInfo) :
    SetSizeClasses cfg num_classes parsed reduce t =
      copyRegsF cfg.kNumBaseClasses
        (cfg.kNumClasses / cfg.kNumBaseClasses)
        (cfg.kNumClasses / cfg.kNumBaseClasses - 1)
        (zeroFillF cfg.kNumBaseClasses
          (cfg.kNumBaseClasses -
            (setLoopResult cfg num_classes parsed reduce t).2)
          (setLoopResult cfg num_classes parsed reduce t).1
          (setLoopResult cfg num_classes parsed reduce t).2) 1 := rfl

theorem coh_facts {cfg : Config}
    (hcoh : cfg.kNumClasses = cfg.kNumBaseClasses *
      (if cfg.kHasExpandedClasses then 2 else 1))
    (hpos : 0 < cfg.kNumClasses) :
    0 < cfg.kNumBaseClasses ∧ cfg.kNumBaseClasses ≤ cfg.kNumClasses ∧
      cfg.kNumBaseClasses * (cfg.kNumClasses / cfg.kNumBaseClasses) =
        cfg.kNumClasses ∧ 1 ≤ cfg.kNumClasses / cfg.kNumBaseClasses := by
  cases hexp : cfg.kHasExpandedClasses
  · rw [hexp] at hcoh
    simp only [Bool.false_eq_true, if_false, Nat.mul_one] at hcoh
    have hb : 0 < cfg.kNumBaseClasses := by omega
    have hdiv : cfg.kNumClasses / cfg.kNumBaseClasses = 1 := by
      rw [hcoh, Nat.div_self hb]
    rw [hdiv]
    omega
  · rw [hexp] at hcoh
    simp only [if_true] at hcoh
    have hb : 0 < cfg.kNumBaseClasses := by omega
    have hdiv : cfg.kNumClasses / cfg.kNumBaseClasses = 2 := by
      rw [hcoh, Nat.mul_div_cancel_left 2 hb]
    rw [hdiv]
    omega

theorem checked_facts {cfg : Config} {num_classes : Int}
    (hcoh : cfg.kNumClasses = cfg.kNumBaseClasses *
      (if cfg.kHasExpandedClasses then 2 else 1))
    (hbound : num_classes.toNat ≤ cfg.kNumClasses)
    (hpos : 0 < num_classes) :
    checkedCount cfg num_classes ≤ cfg.kNumBaseClasses ∧
      1 ≤ checkedCount cfg num_classes ∧
      checkedCount cfg num_classes ≤ num_classes.toNat ∧
      (checkedCount cfg num_classes = cfg.kNumBaseClasses ∨
        checkedCount cfg num_classes = num_classes.toNat) := by
  unfold checkedCount
  cases hexp : cfg.kHasExpandedClasses
  · rw [if_neg (by simp)]
    rw [hexp] at hcoh
    simp only [Bool.false_eq_true, if_false, Nat.mul_one] at hcoh
    omega
  · by_cases hlt : (cfg.kNumBaseClasses : Int) < num_classes
    · rw [if_pos ⟨rfl, hlt⟩]
      refine ⟨le_refl _, ?_, by omega, Or.inl rfl⟩
      rw [hexp] at hcoh
      simp only [if_true] at hcoh
      omega
    · rw [if_neg (fun h => hlt h.2)]
      omega

theorem buildTables_facts {cfg : Config} {num_classes : Int}
    {parsed : Nat → SizeClassInfo}
    (hcoh : cfg.kNumClasses = cfg.kNumBaseClasses *
      (if cfg.kHasExpandedClasses then 2 else 1))
    (hbound : num_classes.toNat ≤ cfg.kNumClasses)
    (hv : ValidSizeClasses cfg num_classes parsed = true) :
    BuildFacts cfg num_classes parsed := by
  have hnc0 := valid_num_pos hv
  have hn1 : 1 ≤ num_classes.toNat := by omega
  obtain ⟨hb, hbn, hbr, hr1⟩ := coh_facts hcoh (by omega)
  obtain ⟨hk1, hk2, hk3, hk4⟩ := checked_facts hcoh hbound hnc0
  have hm1 : cfg.kNumBaseClasses * 1 = cfg.kNumBaseClasses := Nat.mul_one _
  have hset := @setLoopF_false_get cfg parsed num_classes.toNat
    num_classes.toNat 1 (upd initTables 0 ⟨0, 0, 0⟩) (by omega)
  have hp2 : (setLoopResult cfg num_classes.toNat parsed false initTables).2 =
      num_classes.toNat := by
    unfold setLoopResult
    have := hset.1
    omega
  have hbase : ∀ y,
      zeroFillF cfg.kNumBaseClasses
        (cfg.kNumBaseClasses -
          (setLoopResult cfg num_classes.toNat parsed false initTables).2)
        (setLoopResult cfg num_classes.toNat parsed false initTables).1
        (setLoopResult cfg num_classes.toNat parsed false initTables).2 y =
      if num_classes.toNat ≤ y ∧ y < cfg.kNumBaseClasses then ⟨0, 0, 0⟩
      else if 1 ≤ y ∧ y < num_classes.toNat then parsed y
      else ⟨0, 0, 0⟩ := by
    intro y
    rw [zeroFillF_get _ _ _ (by omega) y, hp2]
    by_cases h1 : num_classes.toNat ≤ y ∧ y < cfg.kNumBaseClasses
    · rw [if_pos h1, if_pos h1]
    · rw [if_neg h1, if_neg h1]
      unfold setLoopResult
      rw [hset.2 y]
      by_cases h2 : 1 ≤ y ∧ y < num_classes.toNat
      · rw [if_pos h2, if_pos h2]
      · rw [if_neg h2, if_neg h2]
        unfold upd initTables
        split <;> rfl
  have hfin : ∀ y, buildTables cfg num_classes parsed y =
      copyRegsF cfg.kNumBaseClasses (cfg.kNumClasses / cfg.kNumBaseClasses)
        (cfg.kNumClasses / cfg.kNumBaseClasses - 1)
        (zeroFillF cfg.kNumBaseClasses
          (cfg.kNumBaseClasses -
            (setLoopResult cfg num_classes.toNat parsed false initTables).2)
          (setLoopResult cfg num_classes.toNat parsed false initTables).1
          (setLoopResult cfg num_classes.toNat parsed false initTables).2) 1
        y :=
    fun _ => rfl
  constructor
  · rw [hfin 0, copyRegsF_low _ 1 _ 0 (le_refl 1) (by omega), hbase 0,
      if_neg (by omega), if_neg (by omega)]
  · intro x hx1 hx2
    rw [hfin x, copyRegsF_low _ 1 _ x (le_refl 1) (by omega), hbase x,
      if_neg (by omega), if_pos ⟨hx1, by omega⟩]
  · intro x hx1 hx2
    rw [hfin x, copyRegsF_low _ 1 _ x (le_refl 1) (by omega), hbase x]
    rcases hk4 with hk | hk
    · omega
    · rw [if_pos (by omega)]
  · intro i j hi1 hi2 hj
    rw [hfin _, hfin j,
      copyRegsF_copy _ 1 _ i j (le_refl 1) hi1 hi2 (by omega) hj,
      copyRegsF_low _ 1 _ j (le_refl 1) (by omega)]
  · intro x hx
    have hxB : cfg.kNumBaseClasses ≤ x := by
      calc cfg.kNumBaseClasses = cfg.kNumBaseClasses * 1 := hm1.symm
        _ ≤ cfg.kNumBaseClasses * (cfg.kNumClasses / cfg.kNumBaseClasses) :=
          Nat.mul_le_mul_left _ hr1
        _ ≤ x := hx
    rw [hfin x, copyRegsF_high _ 1 _ x (le_refl 1) hx, hbase x,
      if_neg (by omega), if_neg (by omega)]

/-! ### Bridging validity to the sweep invariants -/

theorem valid_entries {cfg : Config} {num_classes : Int}
    {parsed : Nat → SizeClassInfo} (hc : CfgOK cfg)
    (hv : ValidSizeClasses cfg num_classes parsed = true) :
    ∀ c, 1 ≤ c → c < checkedCount cfg num_classes →
      ClassEntryOK cfg (parsed (c - 1)).size (parsed c) := by
  have hvl := (valid_parts hv).1
  rw [validLoopF_iff _ 1 (by omega)] at hvl
  intro c h1 h2
  exact (classCheck_iff hc _ _).1 (hvl c h1 h2)

theorem buildTables_tableOK {cfg : Config} {num_classes : Int}
    {parsed : Nat → SizeClassInfo} (hc : CfgOK cfg)
    (hcoh : cfg.kNumClasses = cfg.kNumBaseClasses *
      (if cfg.kHasExpandedClasses then 2 else 1))
    (hbound : num_classes.toNat ≤ cfg.kNumClasses)
    (hv : ValidSizeClasses cfg num_classes parsed = true)
    (h2 : 2 ≤ checkedCount cfg num_classes) :
    TableOK cfg (buildTables cfg num_classes parsed)
      (checkedCount cfg num_classes - 1) := by
  have hnc0 := valid_num_pos hv
  obtain ⟨hb, hbn, hbr, hr1⟩ := coh_facts hcoh (by omega)
  obtain ⟨hk1, hk2, hk3, hk4⟩ := checked_facts hcoh hbound hnc0
  have hfacts := buildTables_facts hcoh hbound hv
  have hent := valid_entries hc hv
  have hsz : ∀ x, 1 ≤ x → x ≤ checkedCount cfg num_classes - 1 →
      class_to_size (buildTables cfg num_classes parsed) x =
        (parsed x).size := by
    intro x hx1 hx2
    unfold class_to_size
    rw [hfacts.entry x hx1 (by omega)]
  refine ⟨by omega, by omega, ?_, ?_, ?_, ?_⟩
  · intro c h1 h2c
    rw [hsz c h1 (by omega), hsz (c + 1) (by omega) (by omega)]
    have hE := hent (c + 1) (by omega) (by omega)
    have : (c + 1 - 1) = c := by omega
    rw [this] at hE
    exact hE.1
  · rw [hsz 1 (le_refl 1) (by omega)]
    have hE := hent 1 (le_refl 1) (by omega)
    have : (1 - 1 : Nat) = 0 := rfl
    rw [this] at hE
    have := hE.1
    omega
  · rw [hsz _ (by omega) (le_refl _)]
    exact (valid_parts hv).2
  · intro c h1 h2c
    rw [hsz c h1 h2c]
    exact entry_grid hc (hent c h1 (by omega)).2.2.1

theorem buildTables_size_cases {cfg : Config} {num_classes : Int}
    {parsed : Nat → SizeClassInfo}
    (hcoh : cfg.kNumClasses = cfg.kNumBaseClasses *
      (if cfg.kHasExpandedClasses then 2 else 1))
    (hbound : num_classes.toNat ≤ cfg.kNumClasses)
    (hv : ValidSizeClasses cfg num_classes parsed = true) :
    ∀ x, buildTables cfg num_classes parsed x = ⟨0, 0, 0⟩ ∨
      ∃ j, 1 ≤ j ∧ j ≤ checkedCount cfg num_classes - 1 ∧
        buildTables cfg num_classes parsed x =
          buildTables cfg num_classes parsed j := by
  have hnc0 := valid_num_pos hv
  obtain ⟨hb, hbn, hbr, hr1⟩ := coh_facts hcoh (by omega)
  obtain ⟨hk1, hk2, hk3, hk4⟩ := checked_facts hcoh hbound hnc0
  have hfacts := buildTables_facts hcoh hbound hv
  have hbasecase : ∀ j, j < cfg.kNumBaseClasses →
      (buildTables cfg num_classes parsed j = ⟨0, 0, 0⟩ ∨
        (1 ≤ j ∧ j ≤ checkedCount cfg num_classes - 1)) := by
    intro j hj
    by_cases hj0 : j = 0
    · subst hj0; exact Or.inl hfacts.sentinel
    · by_cases hjc : j < checkedCount cfg num_classes
      · exact Or.inr ⟨by omega, by omega⟩
      · exact Or.inl (hfacts.zfill j (by omega) hj)
  intro x
  by_cases hx1 : x < cfg.kNumBaseClasses
  · rcases hbasecase x hx1 with h | h
    · exact Or.inl h
    · exact Or.inr ⟨x, h.1, h.2, rfl⟩
  · by_cases hx2 :
        cfg.kNumBaseClasses * (cfg.kNumClasses / cfg.kNumBaseClasses) ≤ x
    · exact Or.inl (hfacts.beyond x hx2)
    · have hdm := Nat.div_add_mod x cfg.kNumBaseClasses
      have hmod : x % cfg.kNumBaseClasses < cfg.kNumBaseClasses :=
        Nat.mod_lt _ hb
      have hdiv1 : 1 ≤ x / cfg.kNumBaseClasses := by
        rw [Nat.le_div_iff_mul_le hb]
        omega
      have hdiv2 : x / cfg.kNumBaseClasses <
          cfg.kNumClasses / cfg.kNumBaseClasses := by
        by_contra hcon
        have : cfg.kNumBaseClasses * (cfg.kNumClasses / cfg.kNumBaseClasses) ≤
            cfg.kNumBaseClasses * (x / cfg.kNumBaseClasses) :=
          Nat.mul_le_mul_left _ (by omega)
        omega
      have hup := hfacts.upper (x / cfg.kNumBaseClasses)
        (x % cfg.kNumBaseClasses) hdiv1 hdiv2 hmod
      rw [hdm] at hup
      rcases hbasecase (x % cfg.kNumBaseClasses) hmod with h | h
      · exact Or.inl (hup.trans h)
      · exact Or.inr ⟨x % cfg.kNumBaseClasses, h.1, h.2, hup⟩

theorem lookup_spec {cfg : Config} {num_classes : Int}
    {parsed : Nat → SizeClassInfo} (hc : CfgOK cfg)
    (hcoh : cfg.kNumClasses = cfg.kNumBaseClasses *
      (if cfg.kHasExpandedClasses then 2 else 1))
    (hbound : num_classes.toNat ≤ cfg.kNumClasses)
    (hv : ValidSizeClasses cfg num_classes parsed = true)
    (h2 : 2 ≤ checkedCount cfg num_classes) :
    ∀ s, 1 ≤ s → s ≤ cfg.kMaxSize →
      (buildLookup cfg (buildTables cfg num_classes parsed)).1
          (ClassIndex cfg s) =
        leastClassGE (class_to_size (buildTables cfg num_classes parsed))
          (checkedCount cfg num_classes - 1) s := by
  have htOK := buildTables_tableOK hc hcoh hbound hv h2
  have hn0 : nextOf cfg (buildTables cfg num_classes parsed) 1 = 0 := by
    unfold nextOf
    rw [if_pos rfl]
  have hsw := (sweep_suffix hc htOK (checkedCount cfg num_classes - 1 - 1) 1
    cfg.kNumClasses (fun _ => 0) (le_refl 1) (by omega) (by omega)
    (by omega)).1
  rw [hn0] at hsw
  intro s hs1 hs2
  exact hsw s hs1 hs2 (Nat.zero_le _)

/-! ### Auxiliary facts about the concrete configurations and loops -/

theorem wcfgOK : CfgOK wcfg :=
  ⟨by decide, ⟨3, rfl⟩, ⟨6, rfl⟩, by decide, by decide, by decide, by decide⟩

theorem ecfgOK : CfgOK ecfg :=
  ⟨by decide, ⟨3, rfl⟩, ⟨6, rfl⟩, by decide, by decide, by decide, by decide⟩

theorem validLoopF_congr {cfg : Config} {parsed parsed2 : Nat → SizeClassInfo}
    {n : Nat} (hag : ∀ j, j < n → parsed2 j = parsed j) :
    ∀ fuel c, 1 ≤ c → validLoopF cfg parsed2 n fuel c =
      validLoopF cfg parsed n fuel c := by
  intro fuel
  induction fuel with
  | zero => intro c _; rfl
  | succ fuel ih =>
    intro c hc1
    simp only [validLoopF]
    by_cases hcn : c < n
    · rw [if_pos hcn, if_pos hcn, hag c hcn, hag (c - 1) (by omega),
        ih (c + 1) (by omega)]
    · rw [if_neg hcn, if_neg hcn]

theorem sweepF_keep_zero {cfg : Config} {t : Nat → SizeClassInfo}
    (ha : 0 < cfg.kAlignment) :
    ∀ fuel arr next c, 1 ≤ next → (sweepF cfg t fuel arr next c).1 0 = arr 0 :=
  by
  intro fuel
  induction fuel with
  | zero => intro arr next c _; rfl
  | succ fuel ih =>
    intro arr next c hnext
    simp only [sweepF]
    by_cases hcN : c < cfg.kNumClasses
    · rw [if_pos hcN]
      have hfill : fillClass cfg 0 arr c next (class_to_size t c) 0 = arr 0 :=
        by
        refine fillClass_untouched arr 0 ?_
        intro s2 hs2a _ _
        have := ClassIndex_pos ha (show 1 ≤ s2 by omega)
        omega
      by_cases hbrk :
          cfg.kMaxSize < class_to_size t c + cfg.kAlignment
      · rw [if_pos hbrk]
        exact hfill
      · rw [if_neg hbrk, ih _ _ (c + 1) (by omega), hfill]
    · rw [if_neg hcN]

/-! ### Claim C4 -/

/-- Claim C4: `ValidSizeClasses(num_classes, parsed)` returns false exactly on
a non-positive count, a non-increasing checked size, a checked size beyond
`kMaxSize`, a violation of the tier alignment rule, a multi-page run at or
below the multi-page threshold, a page run of 256 or more, a transfer batch
beyond `kMaxObjectsToMove`, or a last checked size different from `kMaxSize`;
it returns true when every check over the checked prefix passes. -/
theorem c4_validator_iff {cfg : Config} (hc : CfgOK cfg) (num_classes : Int)
    (parsed : Nat → SizeClassInfo) :
    ValidSizeClasses cfg num_classes parsed = true ↔
      SpecAccepts cfg num_classes parsed :=
  ValidSizeClasses_iff hc num_classes parsed

/-- Witness for claim C4 at the concrete configuration and specification. -/
theorem c4_validator_iff_witness :
    ValidSizeClasses wcfg 4 wparsed = true ↔ SpecAccepts wcfg 4 wparsed :=
  c4_validator_iff wcfgOK 4 wparsed

/-! ### Claim C5 -/

/-- Claim C5: `MaybeRunTimeSizeClasses` returns false and leaves the class
tables unchanged whenever the candidate fails `ValidSizeClasses` or its count
differs from the compiled-in `kSizeClassesCount`; only when both checks pass
does it return true and rewrite the tables through `SetSizeClasses`. -/
theorem c5_override_guarded (cfg : Config) (num_classes : Int)
    (parsed : Nat → SizeClassInfo) (t : Nat → SizeClassInfo) :
    ((ValidSizeClasses cfg num_classes parsed = false ∨
        num_classes ≠ (cfg.kSizeClassesCount : Int)) →
      MaybeRunTimeSizeClasses cfg num_classes parsed t = (false, t)) ∧
    ((ValidSizeClasses cfg num_classes parsed = true ∧
        num_classes = (cfg.kSizeClassesCount : Int)) →
      MaybeRunTimeSizeClasses cfg num_classes parsed t =
        (true, SetSizeClasses cfg num_classes.toNat parsed false t)) := by
  unfold MaybeRunTimeSizeClasses
  constructor
  · intro h
    by_cases hV : ValidSizeClasses cfg num_classes parsed = true
    · rw [if_neg (by simp [hV])]
      have hne : num_classes ≠ (cfg.kSizeClassesCount : Int) := by
        rcases h with h | h
        · rw [hV] at h
          exact absurd h (by simp)
        · exact h
      rw [if_pos hne]
    · rw [if_pos (by simp [hV])]
  · rintro ⟨h1, h2⟩
    rw [if_neg (by simp [h1]), if_neg (fun hcon => hcon h2)]

/-- Witness for claim C5 at the concrete configuration (count 4 matches the
compiled-in `kSizeClassesCount` of `wcfg`). -/
theorem c5_override_guarded_witness :
    ((ValidSizeClasses wcfg 4 wparsed = false ∨
        (4 : Int) ≠ (wcfg.kSizeClassesCount : Int)) →
      MaybeRunTimeSizeClasses wcfg 4 wparsed initTables =
        (false, initTables)) ∧
    ((ValidSizeClasses wcfg 4 wparsed = true ∧
        (4 : Int) = (wcfg.kSizeClassesCount : Int)) →
      MaybeRunTimeSizeClasses wcfg 4 wparsed initTables =
        (true, SetSizeClasses wcfg (4 : Int).toNat wparsed false initTables)) :=
  c5_override_guarded wcfg 4 wparsed initTables

/-! ### Claim C6 -/

/-- Claim C6: after `SetSizeClasses` on a valid specification, every base
slot from the first unpopulated one (the final `curr`, one past the last
populated class) up to `kNumBaseClasses - 1` is zero in all three per-class
attributes, and every upper register repeats the base register entrywise. -/
theorem c6_zero_fill_and_copies {cfg : Config} {num_classes : Int}
    {parsed : Nat → SizeClassInfo}
    (hv : ValidSizeClasses cfg num_classes parsed = true) (reduce : Bool)
    (t : Nat → SizeClassInfo) :
    (∀ x, (setLoopResult cfg num_classes.toNat parsed reduce t).2 ≤ x →
      x < cfg.kNumBaseClasses →
      SetSizeClasses cfg num_classes.toNat parsed reduce t x = ⟨0, 0, 0⟩) ∧
    (∀ i j, 1 ≤ i → i < cfg.kNumClasses / cfg.kNumBaseClasses →
      j < cfg.kNumBaseClasses →
      SetSizeClasses cfg num_classes.toNat parsed reduce t
          (cfg.kNumBaseClasses * i + j) =
        SetSizeClasses cfg num_classes.toNat parsed reduce t j) := by
  have he := SetSizeClasses_eq cfg num_classes.toNat parsed reduce t
  constructor
  · intro x hx1 hx2
    rw [he, copyRegsF_low _ 1 _ x (le_refl 1)
        (by have := Nat.mul_one cfg.kNumBaseClasses; omega),
      zeroFillF_get _ _ _ (by omega) x, if_pos ⟨hx1, hx2⟩]
  · intro i j hi1 hi2 hj
    rw [he, copyRegsF_copy _ 1 _ i j (le_refl 1) hi1 hi2 (by omega) hj,
      copyRegsF_low _ 1 _ j (le_refl 1)
        (by have := Nat.mul_one cfg.kNumBaseClasses; omega)]

/-- Witness for claim C6 at the concrete configuration and specification. -/
theorem c6_zero_fill_and_copies_witness :
    (∀ x, (setLoopResult wcfg (4 : Int).toNat wparsed false initTables).2 ≤ x →
      x < wcfg.kNumBaseClasses →
      SetSizeClasses wcfg (4 : Int).toNat wparsed false initTables x =
        ⟨0, 0, 0⟩) ∧
    (∀ i j, 1 ≤ i → i < wcfg.kNumClasses / wcfg.kNumBaseClasses →
      j < wcfg.kNumBaseClasses →
      SetSizeClasses wcfg (4 : Int).toNat wparsed false initTables
          (wcfg.kNumBaseClasses * i + j) =
        SetSizeClasses wcfg (4 : Int).toNat wparsed false initTables j) :=
  c6_zero_fill_and_copies (by decide) false initTables

/-! ### Claim C9 -/

/-- Claim C9: with expanded classes compiled in and a declared count beyond
`kNumBaseClasses`, `ValidSizeClasses` checks only the first `kNumBaseClasses`
entries: its value is the base-prefix loop conjoined with the final-coverage
check at index `kNumBaseClasses - 1`, and it does not depend on any entry at
index `kNumBaseClasses` or beyond. -/
theorem c9_expanded_checks_base_prefix {cfg : Config} {num_classes : Int}
    (parsed parsed2 : Nat → SizeClassInfo)
    (hexp : cfg.kHasExpandedClasses = true)
    (hgt : (cfg.kNumBaseClasses : Int) < num_classes)
    (hB : 0 < cfg.kNumBaseClasses) :
    (ValidSizeClasses cfg num_classes parsed =
      (validLoopF cfg parsed cfg.kNumBaseClasses cfg.kNumBaseClasses 1 &&
        ((parsed (cfg.kNumBaseClasses - 1)).size == cfg.kMaxSize))) ∧
    ((∀ j, j < cfg.kNumBaseClasses → parsed2 j = parsed j) →
      ValidSizeClasses cfg num_classes parsed2 =
        ValidSizeClasses cfg num_classes parsed) := by
  have hck : checkedCount cfg num_classes = cfg.kNumBaseClasses := by
    unfold checkedCount
    rw [if_pos ⟨hexp, hgt⟩]
  have hpos : ¬num_classes ≤ 0 := by omega
  constructor
  · unfold ValidSizeClasses
    rw [if_neg hpos, hck]
  · intro hag
    unfold ValidSizeClasses
    rw [if_neg hpos, if_neg hpos, hck,
      validLoopF_congr hag cfg.kNumBaseClasses 1 (le_refl 1),
      hag (cfg.kNumBaseClasses - 1) (by omega)]

/-- Witness for claim C9 at the concrete expanded configuration with a
declared count of 12 (beyond the 8 base classes). -/
theorem c9_expanded_checks_base_prefix_witness :
    (ValidSizeClasses ecfg 12 wparsed =
      (validLoopF ecfg wparsed ecfg.kNumBaseClasses ecfg.kNumBaseClasses 1 &&
        ((wparsed (ecfg.kNumBaseClasses - 1)).size == ecfg.kMaxSize))) ∧
    ((∀ j, j < ecfg.kNumBaseClasses → wparsed j = wparsed j) →
      ValidSizeClasses ecfg 12 wparsed =
        ValidSizeClasses ecfg 12 wparsed) :=
  c9_expanded_checks_base_prefix wparsed wparsed rfl (by decide) (by decide)

/-! ### Claim C1 -/

/-- Counterexample to claim C1 as stated: the one-entry specification
`wparsedOne` (its single entry, the reserved index 0, carries size
`kMaxSize`) is accepted by `ValidSizeClasses` — the per-class loop checks
nothing — yet after the build, looking up size 1 yields the sentinel class of
size 0, so the lookup under-allocates. -/
theorem c1_counterexample :
    ValidSizeClasses wcfg 1 wparsedOne = true ∧
      class_to_size (buildTables wcfg 1 wparsedOne)
          ((buildLookup wcfg (buildTables wcfg 1 wparsedOne)).1
            (ClassIndex wcfg 1)) < 1 := by
  decide

/-- Claim C1 (amended): for every integer size `s` in `[1, kMaxSize]`, after
the tables and the lookup array are built from a specification accepted by
`ValidSizeClasses` whose checked prefix has at least two entries (at least
one real class beyond the reserved index 0), the class returned by the lookup
has `class_to_size_` at least `s`. -/
theorem c1_no_underallocation {cfg : Config} {num_classes : Int}
    {parsed : Nat → SizeClassInfo} (hc : CfgOK cfg)
    (hcoh : cfg.kNumClasses = cfg.kNumBaseClasses *
      (if cfg.kHasExpandedClasses then 2 else 1))
    (hbound : num_classes.toNat ≤ cfg.kNumClasses)
    (hv : ValidSizeClasses cfg num_classes parsed = true)
    (h2 : 2 ≤ checkedCount cfg num_classes) :
    ∀ s, 1 ≤ s → s ≤ cfg.kMaxSize →
      s ≤ class_to_size (buildTables cfg num_classes parsed)
          ((buildLookup cfg (buildTables cfg num_classes parsed)).1
            (ClassIndex cfg s)) := by
  intro s hs1 hs2
  have htOK := buildTables_tableOK hc hcoh hbound hv h2
  rw [lookup_spec hc hcoh hbound hv h2 s hs1 hs2]
  refine leastClassGE_ge (by omega) ?_
  rw [htOK.last]
  exact hs2

/-- Witness for amended claim C1 at the concrete configuration and
specification, at size 100 (the lookup returns the 1024-byte class). -/
theorem c1_no_underallocation_witness :
    100 ≤ class_to_size (buildTables wcfg 4 wparsed)
        ((buildLookup wcfg (buildTables wcfg 4 wparsed)).1
          (ClassIndex wcfg 100)) :=
  c1_no_underallocation wcfgOK (by decide) (by decide) (by decide) (by decide)
    100 (by decide) (by decide)

/-! ### Claim C2 -/

/-- Claim C2: the class chosen by the lookup is the smallest sufficient one —
for every size `s` in `[1, kMaxSize]`, no class in the built tables has a
size that covers `s` yet lies strictly below the chosen class's size
(equivalently, every class whose size covers `s` is at least as large as the
chosen one). -/
theorem c2_lookup_minimal {cfg : Config} {num_classes : Int}
    {parsed : Nat → SizeClassInfo} (hc : CfgOK cfg)
    (hcoh : cfg.kNumClasses = cfg.kNumBaseClasses *
      (if cfg.kHasExpandedClasses then 2 else 1))
    (hbound : num_classes.toNat ≤ cfg.kNumClasses)
    (hv : ValidSizeClasses cfg num_classes parsed = true) :
    ∀ s, 1 ≤ s → s ≤ cfg.kMaxSize →
      ∀ c2, s ≤ class_to_size (buildTables cfg num_classes parsed) c2 →
        class_to_size (buildTables cfg num_classes parsed)
            ((buildLookup cfg (buildTables cfg num_classes parsed)).1
              (ClassIndex cfg s)) ≤
          class_to_size (buildTables cfg num_classes parsed) c2 := by
  intro s hs1 hs2 c2 hc2
  have hzero : ∀ x, buildTables cfg num_classes parsed x = ⟨0, 0, 0⟩ →
      class_to_size (buildTables cfg num_classes parsed) x = 0 := by
    intro x hx
    unfold class_to_size
    rw [hx]
  by_cases h2 : 2 ≤ checkedCount cfg num_classes
  · rw [lookup_spec hc hcoh hbound hv h2 s hs1 hs2]
    have htOK := buildTables_tableOK hc hcoh hbound hv h2
    rcases buildTables_size_cases hcoh hbound hv c2 with h | ⟨j, hj1, hj2, hj⟩
    · rw [hzero c2 h] at hc2
      omega
    · have hsz : class_to_size (buildTables cfg num_classes parsed) c2 =
          class_to_size (buildTables cfg num_classes parsed) j := by
        unfold class_to_size
        rw [hj]
      rw [hsz] at hc2 ⊢
      have hjge : leastClassGE
          (class_to_size (buildTables cfg num_classes parsed))
          (checkedCount cfg num_classes - 1) s ≤ j := by
        by_contra hcon
        have := @leastClassGE_below
          (class_to_size (buildTables cfg num_classes parsed))
          (checkedCount cfg num_classes - 1) s j hj1 (by omega)
        omega
      have hmem := @leastClassGE_mem
        (class_to_size (buildTables cfg num_classes parsed))
        (checkedCount cfg num_classes - 1) s
        (show 1 ≤ checkedCount cfg num_classes - 1 by omega)
      exact htOK.le_of_le hmem.1 hjge hj2
  · rcases buildTables_size_cases hcoh hbound hv c2 with h | ⟨j, hj1, hj2, hj⟩
    · rw [hzero c2 h] at hc2
      omega
    · have hnc0 := valid_num_pos hv
      have hk := checked_facts hcoh hbound hnc0
      omega

/-- Witness for claim C2 at the concrete configuration and specification,
at size 100 against class 3 (size 2048, which also covers 100). -/
theorem c2_lookup_minimal_witness :
    class_to_size (buildTables wcfg 4 wparsed)
        ((buildLookup wcfg (buildTables wcfg 4 wparsed)).1
          (ClassIndex wcfg 100)) ≤
      class_to_size (buildTables wcfg 4 wparsed) 3 :=
  c2_lookup_minimal wcfgOK (by decide) (by decide) (by decide) 100 (by decide)
    (by decide) 3 (by decide)

/-! ### Claim C3 -/

/-- Claim C3: for every active (non-zero-size) class `c` in the base register,
looking up that class's own size returns `c` again. -/
theorem c3_round_trip {cfg : Config} {num_classes : Int}
    {parsed : Nat → SizeClassInfo} (hc : CfgOK cfg)
    (hcoh : cfg.kNumClasses = cfg.kNumBaseClasses *
      (if cfg.kHasExpandedClasses then 2 else 1))
    (hbound : num_classes.toNat ≤ cfg.kNumClasses)
    (hv : ValidSizeClasses cfg num_classes parsed = true) :
    ∀ c, c < cfg.kNumBaseClasses →
      class_to_size (buildTables cfg num_classes parsed) c ≠ 0 →
      (buildLookup cfg (buildTables cfg num_classes parsed)).1
          (ClassIndex cfg
            (class_to_size (buildTables cfg num_classes parsed) c)) = c := by
  intro c hcB hne
  have hfacts := buildTables_facts hcoh hbound hv
  have hc0 : c ≠ 0 := by
    intro h0
    subst h0
    refine hne ?_
    unfold class_to_size
    rw [hfacts.sentinel]
  have hcchk : c < checkedCount cfg num_classes := by
    by_contra hcon
    refine hne ?_
    unfold class_to_size
    rw [hfacts.zfill c (by omega) hcB]
  have h2 : 2 ≤ checkedCount cfg num_classes := by omega
  have htOK := buildTables_tableOK hc hcoh hbound hv h2
  have hpos : 1 ≤ class_to_size (buildTables cfg num_classes parsed) c := by
    have h1 := htOK.pos1
    have h12 := htOK.le_of_le (le_refl 1) (show 1 ≤ c by omega) (by omega)
    omega
  rw [lookup_spec hc hcoh hbound hv h2 _ hpos
    (htOK.le_max (by omega) (by omega))]
  exact leastClassGE_eq (by omega) (by omega) (le_refl _)
    (fun j hj1 hj2 => htOK.lt_of_lt hj1 hj2 (by omega))

/-- Witness for claim C3 at the concrete configuration and specification,
at the active base class 2 (size 1024). -/
theorem c3_round_trip_witness :
    (buildLookup wcfg (buildTables wcfg 4 wparsed)).1
        (ClassIndex wcfg
          (class_to_size (buildTables wcfg 4 wparsed) 2)) = 2 :=
  c3_round_trip wcfgOK (by decide) (by decide) (by decide) 2 (by decide)
    (by decide)

/-! ### Claim C10 -/

/-- Claim C10: after the lookup array is built, a lookup for size 0 returns
class 1, not the reserved sentinel class 0, because the sweep for class 1
starts its fill at size 0 and no later fill touches lookup index 0. -/
theorem c10_zero_maps_to_class_one {cfg : Config} {num_classes : Int}
    {parsed : Nat → SizeClassInfo} (ha : 0 < cfg.kAlignment)
    (hN : 1 < cfg.kNumClasses)
    (hv : ValidSizeClasses cfg num_classes parsed = true) :
    (buildLookup cfg (buildTables cfg num_classes parsed)).1
        (ClassIndex cfg 0) = 1 := by
  have hw : ∀ maxs : Nat,
      fillClass cfg 0 (fun _ => 0) 1 0 maxs (ClassIndex cfg 0) = 1 := by
    intro maxs
    have h : fillClass cfg 0 (fun _ => 0) 1 0 maxs (ClassIndex cfg 0 + 0) =
        1 :=
      fillClass_written ha (fun _ => 0) (le_refl 0) (Nat.zero_le maxs)
        (Nat.dvd_zero _)
    rwa [Nat.add_zero] at h
  unfold buildLookup
  have hNc : cfg.kNumClasses = cfg.kNumClasses - 1 + 1 := by omega
  rw [hNc]
  simp only [sweepF]
  rw [if_pos (by omega)]
  by_cases hbrk : cfg.kMaxSize <
      class_to_size (buildTables cfg num_classes parsed) 1 + cfg.kAlignment
  · rw [if_pos hbrk]
    exact hw _
  · rw [if_neg hbrk]
    rw [ClassIndex_zero ha,
      sweepF_keep_zero ha _ _ _ 2 (by omega)]
    have := hw (class_to_size (buildTables cfg num_classes parsed) 1)
    rwa [ClassIndex_zero ha] at this

/-- Witness for claim C10 at the concrete configuration and specification. -/
theorem c10_zero_maps_to_class_one_witness :
    (buildLookup wcfg (buildTables wcfg 4 wparsed)).1 (ClassIndex wcfg 0) =
      1 :=
  c10_zero_maps_to_class_one (by decide) (by decide) (by decide)

/-! ### Claims C7 and C8 -/

theorem findColdClassF_spec {cfg : Config} {t : Nat → SizeClassInfo}
    {target c : Nat} : ∀ fuel start,
    findColdClassF cfg t target fuel start = some c →
      start ≤ c ∧ c < cfg.kNumClasses ∧ class_to_size t c = target := by
  intro fuel
  induction fuel with
  | zero => intro start h; exact absurd h (by simp [findColdClassF])
  | succ fuel ih =>
    intro start h
    simp only [findColdClassF] at h
    by_cases h1 : start < cfg.kNumClasses
    · rw [if_pos h1] at h
      by_cases h2 : class_to_size t start = target
      · rw [if_pos h2] at h
        have : start = c := by
          injection h with h3
        subst this
        exact ⟨le_refl _, h1, h2⟩
      · rw [if_neg h2] at h
        have := ih (start + 1) h
        exact ⟨by omega, this.2.1, this.2.2⟩
    · rw [if_neg h1] at h
      exact absurd h (by simp)

theorem coldLoop_mem {cfg : Config} {t : Nat → SizeClassInfo} :
    ∀ (cands : List Nat) (st : ColdState) (c2 : Nat),
      c2 ∈ (coldLoop cfg t st cands).cold_sizes →
      c2 ∈ st.cold_sizes ∨ ∃ m, m ∈ cands ∧
        findColdClass cfg t m (kExpandedClassesStart cfg) = some c2 ∧
        class_to_pages t c2 * cfg.kPageSize / m ≤ cfg.kCacheSize := by
  intro cands
  induction cands with
  | nil => intro st c2 h; exact Or.inl h
  | cons m rest ih =>
    intro st c2 h
    have happend : ∀ c3 : Nat,
        c2 ∈ st.cold_sizes ++ [c3] → c2 ∈ st.cold_sizes ∨ c2 = c3 := by
      intro c3 hmem
      rcases List.mem_append.1 hmem with h2 | h2
      · exact Or.inl h2
      · exact Or.inr (List.mem_singleton.1 h2)
    simp only [coldLoop] at h
    cases hfind : findColdClass cfg t m (kExpandedClassesStart cfg) with
    | none =>
      rw [hfind] at h
      rcases ih st c2 h with h2 | ⟨m2, hm2, h3, h4⟩
      · exact Or.inl h2
      · exact Or.inr ⟨m2, List.mem_cons_of_mem m hm2, h3, h4⟩
    | some c3 =>
      rw [hfind] at h
      dsimp only at h
      by_cases hcap :
          cfg.kCacheSize < class_to_pages t c3 * cfg.kPageSize / m
      · rw [if_pos hcap] at h
        rcases ih st c2 h with h2 | ⟨m2, hm2, h3, h4⟩
        · exact Or.inl h2
        · exact Or.inr ⟨m2, List.mem_cons_of_mem m hm2, h3, h4⟩
      · rw [if_neg hcap] at h
        by_cases hbrk : cfg.kMaxSize < m + cfg.kAlignment
        · rw [if_pos hbrk] at h
          rcases happend c3 h with h2 | h2
          · exact Or.inl h2
          · subst h2
            exact Or.inr ⟨m, List.mem_cons_self m rest, hfind, by omega⟩
        · rw [if_neg hbrk] at h
          rcases ih _ c2 h with h2 | ⟨m2, hm2, h3, h4⟩
          · rcases happend c3 h2 with h5 | h5
            · exact Or.inl h5
            · subst h5
              exact Or.inr ⟨m, List.mem_cons_self m rest, hfind, by omega⟩
          · exact Or.inr ⟨m2, List.mem_cons_of_mem m hm2, h3, h4⟩

/-- Claim C7: on a candidate size `m` that is found among the expanded
classes as class `c` and passes the per-span object cap, the cold loop
overwrites every upper-register lookup entry for the sizes swept from the
cursor through `m` with `c`, records `c` in `cold_sizes_`, and advances the
cursor to one alignment unit past `m` (stopping there if the cursor passes
`kMaxSize`, otherwise continuing with the remaining candidates). -/
theorem c7_cold_step {cfg : Config} {t : Nat → SizeClassInfo} {m c : Nat}
    {rest : List Nat} (st : ColdState) (ha : 0 < cfg.kAlignment)
    (hfound : findColdClass cfg t m (kExpandedClassesStart cfg) = some c)
    (hcap : class_to_pages t c * cfg.kPageSize / m ≤ cfg.kCacheSize) :
    (∀ s, st.next ≤ s → s ≤ m → cfg.kAlignment ∣ (s - st.next) →
      fillClass cfg (kClassArraySize cfg) st.arr c st.next m
          (ClassIndex cfg s + kClassArraySize cfg) = c) ∧
    coldLoop cfg t st (m :: rest) =
      (if cfg.kMaxSize < m + cfg.kAlignment then
        (⟨fillClass cfg (kClassArraySize cfg) st.arr c st.next m,
          st.cold_sizes ++ [c], m + cfg.kAlignment⟩ : ColdState)
      else
        coldLoop cfg t
          ⟨fillClass cfg (kClassArraySize cfg) st.arr c st.next m,
            st.cold_sizes ++ [c], m + cfg.kAlignment⟩ rest) := by
  constructor
  · intro s h1 h2 hd
    exact fillClass_written ha st.arr h1 h2 hd
  · simp only [coldLoop]
    rw [hfound]
    dsimp only
    rw [if_neg (by omega)]

/-- Witness for claim C7: under the expanded configuration, candidate size
2048 is found at expanded class 11 and passes the cap, so the loop body
redirects the swept upper entries to class 11 and advances the cursor to
2056, which ends the classification. -/
theorem c7_cold_step_witness :
    (∀ s, 0 ≤ s → s ≤ 2048 → ecfg.kAlignment ∣ (s - 0) →
      fillClass ecfg (kClassArraySize ecfg) (fun _ => 0) 11 0 2048
          (ClassIndex ecfg s + kClassArraySize ecfg) = 11) ∧
    coldLoop ecfg (buildTables ecfg 4 wparsed)
        ⟨fun _ => 0, [], 0⟩ (2048 :: []) =
      (if ecfg.kMaxSize < 2048 + ecfg.kAlignment then
        (⟨fillClass ecfg (kClassArraySize ecfg) (fun _ => 0) 11 0 2048,
          [] ++ [11], 2048 + ecfg.kAlignment⟩ : ColdState)
      else
        coldLoop ecfg (buildTables ecfg 4 wparsed)
          ⟨fillClass ecfg (kClassArraySize ecfg) (fun _ => 0) 11 0 2048,
            [] ++ [11], 2048 + ecfg.kAlignment⟩ []) :=
  c7_cold_step ⟨fun _ => 0, [], 0⟩ (by decide) (by decide) (by decide)

/-- Claim C8: every class id recorded in `cold_sizes_` by the
cold-classification loop run on the fixed candidate list lies in the expanded
class range of the built table, its size is one of the compiled-in cold
candidate sizes, and the number of objects of that size fitting in its page
run does not exceed the per-span cache cap. -/
theorem c8_cold_set_properties {cfg : Config} {t : Nat → SizeClassInfo}
    (arr : Nat → Nat) (next : Nat) :
    ∀ c2, c2 ∈ (coldLoop cfg t ⟨arr, [], next⟩ kColdCandidates).cold_sizes →
      kExpandedClassesStart cfg ≤ c2 ∧ c2 < cfg.kNumClasses ∧
      class_to_size t c2 ∈ kColdCandidates ∧
      class_to_pages t c2 * cfg.kPageSize / class_to_size t c2 ≤
        cfg.kCacheSize := by
  intro c2 h
  rcases coldLoop_mem kColdCandidates ⟨arr, [], next⟩ c2 h with h2 |
    ⟨m, hm, hf, hcap⟩
  · exact absurd h2 (by simp)
  · unfold findColdClass at hf
    have hs := findColdClassF_spec _ _ hf
    refine ⟨hs.1, hs.2.1, ?_, ?_⟩
    · rw [hs.2.2]
      exact hm
    · rw [hs.2.2]
      exact hcap

/-- Witness for claim C8: class 11 is the one class recorded by the cold
loop under the expanded configuration, and the theorem's properties hold of
it. -/
theorem c8_cold_set_properties_witness :
    kExpandedClassesStart ecfg ≤ 11 ∧ 11 < ecfg.kNumClasses ∧
      class_to_size (buildTables ecfg 4 wparsed) 11 ∈ kColdCandidates ∧
      class_to_pages (buildTables ecfg 4 wparsed) 11 * ecfg.kPageSize /
          class_to_size (buildTables ecfg 4 wparsed) 11 ≤
        ecfg.kCacheSize :=
  c8_cold_set_properties (fun _ => 0) 0 11 (by decide)
